import Mathlib

/-!
# Verification of the `all-play-all` round-robin tournament scheduler

Shallow embedding of `src/index.ts`.  Lazy generator pipelines become
eager `List` producers; `Math.random`-driven choices become explicit
randomness parameters (`r : Nat → Nat` supplies, for each shuffle step
`startIdx`, an arbitrary natural number that is reduced modulo the size
of the eligible index range, so every possible outcome of
`randomInRange(startIdx, len-1)` is realized by some `r`).
-/

namespace AllPlayAll

/-- Slot values of the robin field: a caller participant or one of the two
sentinel symbols `restSymbol` / `selfSymbol` of `src/index.ts:20-21`. -/
inductive RobinItem (α : Type) where
  | participant (a : α)
  | selfS
  | restS
deriving DecidableEq, Repr

instance {α : Type} : Inhabited (RobinItem α) := ⟨RobinItem.restS⟩

/-- `times` from `src/index.ts:52`: `[f 0, f 1, ..., f (amount-1)]`. -/
def timesList {β : Type} (amount : Nat) (f : Nat → β) : List β :=
  (List.range amount).map f

/-- `range(start, end)` from `src/index.ts:62`: `[start, ..., end-1]`
(empty whenever `end ≤ start`, matching the JS loop bound). -/
def codeRange (start e : Nat) : List Nat :=
  timesList (e - start) (fun idx => idx + start)

/-- `swap` from `src/index.ts:27`, as a pure function: exchange the values
at indices `i` and `j` (identity when either index is out of range, a case
the program never reaches). -/
def swapIdx {β : Type} (i j : Nat) (l : List β) : List β :=
  match l[i]?, l[j]? with
  | some a, some b => (l.set i b).set j a
  | _, _ => l

/-- The recursion `recurse` inside `shuffle` (`src/index.ts:36-42`), with an
explicit fuel that the caller sets to the list length (enough for every
recursive call the JS code makes).  At step `startIdx` the swap partner is
`startIdx + r startIdx % (len - startIdx)`, which ranges over exactly the
interval `[startIdx, len-1]` chosen by `randomInRange`. -/
def shuffleGo {β : Type} (r : Nat → Nat) : Nat → Nat → List β → List β
  | 0, _, l => l
  | fuel + 1, start, l =>
    if start + 1 < l.length then
      shuffleGo r fuel (start + 1) (swapIdx start (start + r start % (l.length - start)) l)
    else l

/-- `shuffle` from `src/index.ts:33`: Fisher-Yates on a copy of the input. -/
def shuffle {β : Type} (r : Nat → Nat) (arr : List β) : List β :=
  shuffleGo r arr.length 0 arr

/-- `shiftRobin` from `src/index.ts:66`: keep the first slot fixed and
rotate the remaining ring by `amount` (the JS index arithmetic
`(m - amount + idx) % m` coincides with this `Nat` arithmetic for every
call the program makes, where `1 ≤ amount ≤ m - 1`).  The program never
calls it on an empty list. -/
def shiftRobin {β : Type} (amount : Nat) (items : List β) : List β :=
  match items with
  | [] => []
  | staticItem :: movingItems =>
    staticItem ::
      timesList movingItems.length (fun idx =>
        movingItems.getD ((movingItems.length - amount + idx) % movingItems.length) staticItem)

/-- `isSentry` from `src/index.ts:81`: only the REST symbol is a sentry. -/
def isSentry {α : Type} [DecidableEq α] (item : RobinItem α) : Bool :=
  item == RobinItem.restS

/-- `reverse` from `src/index.ts:92`: the loop pushes the elements from the
last index down to 0, i.e. it builds the reversed list. -/
def reverseArr {β : Type} (arr : List β) : List β :=
  arr.reverse

/-- The resolved options record `TouranmentOptions` of `src/index.ts:15`
(the source's spelling is kept). -/
structure TouranmentOptions where
  rematch : Bool
  playSelf : Bool
deriving DecidableEq, Repr

/-- `getDefaultTournamentOptions` from `src/index.ts:85`. -/
def getDefaultTournamentOptions : TouranmentOptions :=
  { rematch := false, playSelf := false }

/-- The caller-supplied `Partial<TouranmentOptions>` of `src/index.ts:107`:
each recognized option may be present or absent.  There is no `shuffle`
field anywhere in the source. -/
structure UserTouranmentOptions where
  rematch : Option Bool := none
  playSelf : Option Bool := none

/-- The spread `{...getDefaultTournamentOptions(), ...options}` inside
`allPlayAll` (`src/index.ts:109-112`): a supplied option overrides the
default, an absent one keeps it. -/
def resolveOptions (options : UserTouranmentOptions) : TouranmentOptions :=
  { rematch := options.rematch.getD getDefaultTournamentOptions.rematch,
    playSelf := options.playSelf.getD getDefaultTournamentOptions.playSelf }

/-- `getShiftsOrder` from `src/index.ts:102`. -/
def getShiftsOrder (r : Nat → Nat) (numFixtures : Nat) : List Nat :=
  shuffle r (codeRange 1 numFixtures)

/-- The value-level part of the loop body of `getFixture`
(`src/index.ts:202-215`): substitute the SELF symbol by the opposite side
(left first, then right against the already-substituted left), then yield
the pair unless either side is a sentry. -/
def resolvePair {α : Type} [DecidableEq α] (leftItem0 rightItem0 : RobinItem α) :
    Option (RobinItem α × RobinItem α) :=
  let leftItem := if leftItem0 = RobinItem.selfS then rightItem0 else leftItem0
  let rightItem := if rightItem0 = RobinItem.selfS then leftItem else rightItem0
  if !isSentry leftItem && !isSentry rightItem then some (leftItem, rightItem) else none

/-- The loop body of `getFixture` (`src/index.ts:201-215`) for one
`gameIdx`: read the two slots `u = gameIdx` and `v = numItems - 1 - gameIdx`
and resolve them. -/
def mkGame {α : Type} [DecidableEq α] (items : List (RobinItem α)) (u v : Nat) :
    Option (RobinItem α × RobinItem α) :=
  resolvePair (items.getD u default) (items.getD v default)

/-- `getFixture` from `src/index.ts:195`: `floor(len/2)` candidate games,
pairing slot `gameIdx` with slot `len - 1 - gameIdx`. -/
def getFixture {α : Type} [DecidableEq α] (items : List (RobinItem α)) :
    List (RobinItem α × RobinItem α) :=
  (List.range (items.length / 2)).filterMap (fun gameIdx =>
    mkGame items gameIdx (items.length - 1 - gameIdx))

/-- `getRound` from `src/index.ts:175`: the unrotated fixture followed by
one fixture per visited shift amount, in the shuffled order produced by
`getShiftsOrder(items.length - 1)`. -/
def getRound {α : Type} [DecidableEq α] (r : Nat → Nat) (items : List (RobinItem α)) :
    List (List (RobinItem α × RobinItem α)) :=
  getFixture items ::
    (getShiftsOrder r (items.length - 1)).map (fun shiftAmount =>
      getFixture (shiftRobin shiftAmount items))

/-- `getRounds` from `src/index.ts:146`: the main round, plus a second
round over the element-wise reversed field when `rematch` is set.  `r i`
is the randomness stream the i-th round's iteration draws its shift order
from. -/
def getRounds {α : Type} [DecidableEq α] (r : Nat → Nat → Nat)
    (items : List (RobinItem α)) (options : TouranmentOptions) :
    List (List (List (RobinItem α × RobinItem α))) :=
  [getRound (r 0) items] ++
    (if options.rematch then [getRound (r 1) (reverseArr items)] else [])

/-- `getRoundFixtures` from `src/index.ts:157`: flatten rounds to fixtures. -/
def getRoundFixtures {α : Type} [DecidableEq α] (r : Nat → Nat → Nat)
    (items : List (RobinItem α)) (options : TouranmentOptions) :
    List (List (RobinItem α × RobinItem α)) :=
  (getRounds r items options).flatten

/-- `getRoundGames` from `src/index.ts:166`: flatten fixtures to games. -/
def getRoundGames {α : Type} [DecidableEq α] (r : Nat → Nat → Nat)
    (items : List (RobinItem α)) (options : TouranmentOptions) :
    List (RobinItem α × RobinItem α) :=
  (getRoundFixtures r items options).flatten

/-- The field preparation of `createTournament` (`src/index.ts:119-134`):
shuffle the participants, append one SELF slot when `playSelf` is set, and
then append one REST slot iff the length at that point is odd. -/
def prepareRobinItems {α : Type} (r : Nat → Nat) (options : TouranmentOptions)
    (arr : List α) : List (RobinItem α) :=
  let robinItems := (shuffle r arr).map RobinItem.participant
  let withSelf := if options.playSelf then robinItems ++ [RobinItem.selfS] else robinItems
  if withSelf.length % 2 ≠ 0 then withSelf ++ [RobinItem.restS] else withSelf

/-- The tournament handle returned by `createByRobinItems`
(`src/index.ts:136-143`): an immutable field plus the resolved options. -/
structure Tournament (α : Type) where
  robinItems : List (RobinItem α)
  options : TouranmentOptions

/-- `createTournament` from `src/index.ts:119`. -/
def createTournament {α : Type} (r : Nat → Nat) (arr : List α)
    (options : TouranmentOptions) : Tournament α :=
  { robinItems := prepareRobinItems r options arr, options := options }

/-- `rounds()` of the handle: each call re-runs the generators over the
immutable field, drawing fresh randomness `r`. -/
def Tournament.rounds {α : Type} [DecidableEq α] (t : Tournament α) (r : Nat → Nat → Nat) :
    List (List (List (RobinItem α × RobinItem α))) :=
  getRounds r t.robinItems t.options

/-- `fixtures()` of the handle. -/
def Tournament.fixtures {α : Type} [DecidableEq α] (t : Tournament α) (r : Nat → Nat → Nat) :
    List (List (RobinItem α × RobinItem α)) :=
  getRoundFixtures r t.robinItems t.options

/-- `games()` of the handle. -/
def Tournament.games {α : Type} [DecidableEq α] (t : Tournament α) (r : Nat → Nat → Nat) :
    List (RobinItem α × RobinItem α) :=
  getRoundGames r t.robinItems t.options

/-- `reshuffle()` of the handle (`src/index.ts:141`): a new handle over a
freshly shuffled copy of the *current* field. -/
def Tournament.reshuffle {α : Type} (t : Tournament α) (r : Nat → Nat) : Tournament α :=
  { robinItems := shuffle r t.robinItems, options := t.options }

/-! ## Permutation facts about `shuffle` -/

section ShuffleLemmas

variable {β : Type}

theorem length_swapIdx (i j : Nat) (l : List β) : (swapIdx i j l).length = l.length := by
  unfold swapIdx
  cases h1 : l[i]? with
  | none => simp
  | some a => cases h2 : l[j]? with
    | none => simp
    | some b => simp

theorem cons_set_perm : ∀ (t : List β) (k : Nat) (hk : k < t.length) (x : β),
    List.Perm (t[k] :: t.set k x) (x :: t)
  | a :: s, 0, _, x => List.Perm.swap x a s
  | a :: s, k + 1, hk, x => by
    have hk' : k < s.length := by simpa using hk
    have ih := cons_set_perm s k hk' x
    have h1 : List.Perm (s[k] :: a :: s.set k x) (a :: s[k] :: s.set k x) :=
      List.Perm.swap a (s[k]) (s.set k x)
    have h2 : List.Perm (a :: s[k] :: s.set k x) (a :: x :: s) := ih.cons a
    have h3 : List.Perm (a :: x :: s) (x :: a :: s) := List.Perm.swap x a s
    exact (h1.trans h2).trans h3

theorem swap_set_perm : ∀ (l : List β) (i j : Nat) (hi : i < l.length) (hj : j < l.length),
    List.Perm ((l.set i l[j]).set j l[i]) l
  | a :: t, 0, 0, _, _ => by simp
  | a :: t, 0, k + 1, _, hj => by
    have hk : k < t.length := by simpa using hj
    have : ((a :: t).set 0 ((a :: t)[k + 1])).set (k + 1) ((a :: t)[0])
        = t[k] :: t.set k a := by simp
    rw [this]
    exact cons_set_perm t k hk a
  | a :: t, k + 1, 0, hi, _ => by
    have hk : k < t.length := by simpa using hi
    have : (((a :: t).set (k + 1) ((a :: t)[0])).set 0 ((a :: t)[k + 1]))
        = t[k] :: t.set k a := by simp
    rw [this]
    exact cons_set_perm t k hk a
  | a :: t, k + 1, n + 1, hi, hj => by
    have hk : k < t.length := by simpa using hi
    have hn : n < t.length := by simpa using hj
    have : ((a :: t).set (k + 1) ((a :: t)[n + 1])).set (n + 1) ((a :: t)[k + 1])
        = a :: ((t.set k t[n]).set n t[k]) := by simp
    rw [this]
    exact (swap_set_perm t k n hk hn).cons a

theorem swapIdx_perm (i j : Nat) (l : List β) : List.Perm (swapIdx i j l) l := by
  unfold swapIdx
  cases h1 : l[i]? with
  | none => exact List.Perm.refl l
  | some a =>
    cases h2 : l[j]? with
    | none => exact List.Perm.refl l
    | some b =>
      have hi : i < l.length := by
        by_contra h
        rw [List.getElem?_eq_none (by omega)] at h1
        exact Option.noConfusion h1
      have hj : j < l.length := by
        by_contra h
        rw [List.getElem?_eq_none (by omega)] at h2
        exact Option.noConfusion h2
      have ha : a = l[i] := by
        have := List.getElem?_eq_getElem hi
        rw [this] at h1
        exact (Option.some_inj.mp h1).symm
      have hb : b = l[j] := by
        have := List.getElem?_eq_getElem hj
        rw [this] at h2
        exact (Option.some_inj.mp h2).symm
      subst ha
      subst hb
      exact swap_set_perm l i j hi hj

theorem shuffleGo_perm (r : Nat → Nat) :
    ∀ (fuel start : Nat) (l : List β), List.Perm (shuffleGo r fuel start l) l
  | 0, _, _ => List.Perm.refl _
  | fuel + 1, start, l => by
    unfold shuffleGo
    by_cases h : start + 1 < l.length
    · rw [if_pos h]
      exact (shuffleGo_perm r fuel (start + 1) _).trans
        (swapIdx_perm start (start + r start % (l.length - start)) l)
    · rw [if_neg h]

theorem shuffle_perm (r : Nat → Nat) (arr : List β) : List.Perm (shuffle r arr) arr :=
  shuffleGo_perm r arr.length 0 arr

theorem length_shuffle (r : Nat → Nat) (arr : List β) : (shuffle r arr).length = arr.length :=
  (shuffle_perm r arr).length_eq

theorem mem_shuffle_iff (r : Nat → Nat) (arr : List β) (x : β) :
    x ∈ shuffle r arr ↔ x ∈ arr :=
  (shuffle_perm r arr).mem_iff

end ShuffleLemmas

/-! ## Structure of `shiftRobin`: a rotation of the ring that fixes slot 0 -/

section ShiftRobinLemmas

variable {β : Type}

theorem map_getD_range : ∀ (l : List β) (d : β),
    (List.range l.length).map (fun i => l.getD i d) = l
  | [], _ => rfl
  | a :: t, d => by
    rw [List.length_cons, List.range_succ_eq_map, List.map_cons, List.map_map]
    have : ((fun i => (a :: t).getD i d) ∘ Nat.succ) = fun i => t.getD i d := by
      funext i
      simp
    rw [this, map_getD_range t d]
    simp

theorem length_shiftRobin (amount : Nat) (items : List β) :
    (shiftRobin amount items).length = items.length := by
  cases items with
  | nil => rfl
  | cons st moving => simp [shiftRobin, timesList]

theorem shiftRobin_zero (items : List β) : shiftRobin 0 items = items := by
  cases items with
  | nil => rfl
  | cons st moving =>
    show st :: timesList moving.length
        (fun idx => moving.getD ((moving.length - 0 + idx) % moving.length) st)
      = st :: moving
    congr 1
    have h2 : ∀ idx ∈ List.range moving.length,
        (fun idx => moving.getD ((moving.length - 0 + idx) % moving.length) st) idx
          = (fun idx => moving.getD idx st) idx := by
      intro idx hidx
      rw [List.mem_range] at hidx
      simp only []
      rw [Nat.sub_zero, Nat.add_mod_left, Nat.mod_eq_of_lt hidx]
    unfold timesList
    rw [List.map_congr_left h2]
    exact map_getD_range moving st

theorem shiftRobin_eq_rotate (a : Nat) (st : β) (moving : List β) :
    shiftRobin a (st :: moving) = st :: moving.rotate (moving.length - a) := by
  show st :: timesList moving.length
      (fun idx => moving.getD ((moving.length - a + idx) % moving.length) st)
    = st :: moving.rotate (moving.length - a)
  congr 1
  apply List.ext_getElem
  · simp [timesList, List.length_rotate]
  · intro i h1 h2
    have hi : i < moving.length := by simpa [timesList] using h1
    have hm : 0 < moving.length := by omega
    rw [List.getElem_rotate]
    simp only [timesList, List.getElem_map, List.getElem_range]
    rw [List.getD_eq_getElem _ _ (Nat.mod_lt _ hm)]
    congr 1
    rw [Nat.add_comm]

theorem shiftRobin_perm (amount : Nat) (items : List β) :
    List.Perm (shiftRobin amount items) items := by
  cases items with
  | nil => exact List.Perm.refl _
  | cons st moving =>
    rw [shiftRobin_eq_rotate amount st moving]
    exact (List.rotate_perm moving (moving.length - amount)).cons st

/-- The original-field index that arrangement slot `p` of the fixture with
shift amount `a` draws from, for a field of length `L`: slot 0 is the
pivot, slot `p ≥ 1` draws moving-ring index `(L-1 - a + (p-1)) % (L-1)`. -/
def origPos (L a p : Nat) : Nat :=
  if p = 0 then 0 else 1 + ((L - 1 - a) + (p - 1)) % (L - 1)

theorem origPos_lt (L a p : Nat) (hp : p < L) : origPos L a p < L := by
  unfold origPos
  by_cases h : p = 0
  · rw [if_pos h]; omega
  · rw [if_neg h]
    have hm : 0 < L - 1 := by omega
    have := Nat.mod_lt ((L - 1 - a) + (p - 1)) hm
    omega

theorem origPos_eq_zero_iff (L a p : Nat) : origPos L a p = 0 ↔ p = 0 := by
  unfold origPos
  by_cases h : p = 0
  · simp [h]
  · simp [h]

theorem getD_shiftRobin (a : Nat) (items : List β) (d : β)
    (p : Nat) (hp : p < items.length) :
    (shiftRobin a items).getD p d = items.getD (origPos items.length a p) d := by
  cases items with
  | nil => simp at hp
  | cons st moving =>
    rw [shiftRobin_eq_rotate a st moving]
    cases p with
    | zero => simp [origPos]
    | succ q =>
      have hq : q < moving.length := by simpa using hp
      have hm : 0 < moving.length := by omega
      have hrot : q < (moving.rotate (moving.length - a)).length := by
        rw [List.length_rotate]; exact hq
      rw [List.getD_cons_succ, List.getD_eq_getElem _ _ hrot, List.getElem_rotate]
      have hop : origPos (st :: moving).length a (q + 1)
          = 1 + ((moving.length - a) + q) % moving.length := by
        unfold origPos
        simp
      rw [hop, Nat.add_comm 1 ((moving.length - a + q) % moving.length),
        List.getD_cons_succ, List.getD_eq_getElem _ _ (Nat.mod_lt _ hm)]
      congr 1
      rw [Nat.add_comm]

end ShiftRobinLemmas

/-! ## Circle-method combinatorics on slot indices

For an even field length `L`, fixture `a ∈ [0, L-1)` pairs arrangement
slot `j` with slot `L-1-j`; in terms of original field indices this is the
pair `(origPos L a j, origPos L a (L-1-j))`.  Across all `L-1` fixtures
these unordered pairs enumerate every unordered pair of distinct indices
below `L` exactly once. -/

section PairCombinatorics

/-- Order an index pair so the smaller component is first. -/
def sortPair (pq : Nat × Nat) : Nat × Nat :=
  if pq.1 ≤ pq.2 then pq else (pq.2, pq.1)

/-- The (ordered) pair of original-field indices of game `j` of the
fixture with shift amount `a`. -/
def slotPairOrd (L a j : Nat) : Nat × Nat :=
  (origPos L a j, origPos L a (L - 1 - j))

/-- All sorted index pairs produced across one round: fixtures
`a ∈ [0, L-1)`, games `j ∈ [0, L/2)`. -/
def allSlotPairs (L : Nat) : List (Nat × Nat) :=
  (List.range (L - 1)).flatMap (fun a =>
    (List.range (L / 2)).map (fun j => sortPair (slotPairOrd L a j)))

/-- All sorted pairs `(p, q)` with `p < q < L`. -/
def allPairsList (L : Nat) : List (Nat × Nat) :=
  (List.range L).flatMap (fun q => (List.range q).map (fun p => (p, q)))

theorem mem_allPairsList (L p q : Nat) :
    (p, q) ∈ allPairsList L ↔ p < q ∧ q < L := by
  unfold allPairsList
  simp only [List.mem_flatMap, List.mem_map, List.mem_range, Prod.mk.injEq]
  constructor
  · rintro ⟨b, hb, c, hc, h1, h2⟩
    subst h1; subst h2
    exact ⟨hc, hb⟩
  · rintro ⟨h1, h2⟩
    exact ⟨q, h2, p, h1, rfl, rfl⟩

theorem nodup_allPairsList (L : Nat) : (allPairsList L).Nodup := by
  unfold allPairsList
  rw [List.nodup_flatMap]
  constructor
  · intro q _
    exact (List.nodup_range q).map_on (fun p _ p' _ h => congrArg Prod.fst h)
  · apply (List.pairwise_lt_range L).imp
    intro q q' hqq
    intro x hx hx'
    rw [List.mem_map] at hx hx'
    obtain ⟨p, _, hp⟩ := hx
    obtain ⟨p', _, hp'⟩ := hx'
    have : q = q' := by
      have heq : (p, q) = (p', q') := hp.trans hp'.symm
      exact congrArg Prod.snd heq
    omega

theorem countP_eq_one_of_nodup_mem {γ : Type} [DecidableEq γ] :
    ∀ {l : List γ} {t : γ}, l.Nodup → t ∈ l → l.countP (fun x => decide (x = t)) = 1
  | [], _, _, ht => absurd ht (List.not_mem_nil _)
  | a :: l, t, hn, ht => by
    rw [List.countP_cons]
    rcases List.mem_cons.mp ht with h | h
    · have hnot : t ∉ l := by
        intro hx
        exact (List.nodup_cons.mp hn).1 (h ▸ hx)
      have h0 : l.countP (fun x => decide (x = t)) = 0 := by
        rw [List.countP_eq_zero]
        intro x hx
        simp only [decide_eq_true_eq]
        intro hxt
        exact hnot (hxt ▸ hx)
      rw [h0]
      simp [h]
    · have ha : ¬ (a = t) := by
        intro he
        exact (List.nodup_cons.mp hn).1 (he ▸ h)
      rw [countP_eq_one_of_nodup_mem (List.nodup_cons.mp hn).2 h]
      simp [ha]

theorem countP_allPairsList (L p q : Nat) (hpq : p < q) (hq : q < L) :
    (allPairsList L).countP (fun x => decide (x = (p, q))) = 1 :=
  countP_eq_one_of_nodup_mem (nodup_allPairsList L) ((mem_allPairsList L p q).mpr ⟨hpq, hq⟩)

theorem two_mul_sum_range : ∀ n : Nat, 2 * (List.range n).sum = n * (n - 1)
  | 0 => rfl
  | n + 1 => by
    rw [List.range_succ, List.sum_append, List.sum_cons, List.sum_nil, Nat.add_zero,
      Nat.mul_add, two_mul_sum_range n, Nat.add_sub_cancel]
    cases n with
    | zero => rfl
    | succ k =>
      rw [Nat.succ_sub_one]
      ring

theorem length_allPairsList (L : Nat) : (allPairsList L).length = (List.range L).sum := by
  unfold allPairsList
  rw [List.length_flatMap]
  congr 1
  apply List.ext_getElem
  · simp
  · intro i h1 h2
    simp

theorem length_allSlotPairs (L : Nat) :
    (allSlotPairs L).length = (L - 1) * (L / 2) := by
  unfold allSlotPairs
  rw [List.length_flatMap]
  have : (List.map
      ((fun l : List (Nat × Nat) => l.length) ∘ fun a =>
        (List.range (L / 2)).map (fun j => sortPair (slotPairOrd L a j)))
      (List.range (L - 1)))
      = List.replicate (L - 1) (L / 2) := by
    rw [show ((fun l : List (Nat × Nat) => l.length) ∘ fun a =>
        (List.range (L / 2)).map (fun j => sortPair (slotPairOrd L a j)))
        = fun _ => L / 2 from by funext a; simp]
    rw [List.map_const']
    simp
  rw [show (List.length ∘ fun a =>
      (List.range (L / 2)).map (fun j => sortPair (slotPairOrd L a j)))
      = fun _ : Nat => L / 2 from by funext a; simp]
  rw [List.map_const']
  simp [List.sum_const_nat]

theorem origPos_pos (L a p : Nat) (hp : p ≠ 0) : 1 ≤ origPos L a p := by
  unfold origPos
  rw [if_neg hp]
  omega

theorem origPos_eq_origPos_iff (L a a' p p' : Nat) (hL2 : 2 ≤ L)
    (ha : a ≤ L - 1) (ha' : a' ≤ L - 1) (hp : 1 ≤ p) (hp' : 1 ≤ p') :
    origPos L a p = origPos L a' p' ↔
      (a' + (p - 1)) % (L - 1) = (a + (p' - 1)) % (L - 1) := by
  unfold origPos
  rw [if_neg (by omega), if_neg (by omega)]
  constructor
  · intro h
    have h1 : ((L - 1 - a) + (p - 1)) % (L - 1) = ((L - 1 - a') + (p' - 1)) % (L - 1) := by
      omega
    have hmq : ((L - 1 - a) + (p - 1)) ≡ ((L - 1 - a') + (p' - 1)) [MOD L - 1] := h1
    have h3 := hmq.add_right (a + a')
    have e1 : (L - 1 - a) + (p - 1) + (a + a') = (L - 1) + (a' + (p - 1)) := by omega
    have e2 : (L - 1 - a') + (p' - 1) + (a + a') = (L - 1) + (a + (p' - 1)) := by omega
    rw [e1, e2] at h3
    exact Nat.ModEq.add_left_cancel' (L - 1) h3
  · intro h
    have hmq : (a' + (p - 1)) ≡ (a + (p' - 1)) [MOD L - 1] := h
    have h3 := (Nat.ModEq.refl (n := L - 1) (L - 1)).add hmq
    have e1 : (L - 1) + (a' + (p - 1)) = (L - 1 - a) + (p - 1) + (a + a') := by omega
    have e2 : (L - 1) + (a + (p' - 1)) = (L - 1 - a') + (p' - 1) + (a + a') := by omega
    rw [e1, e2] at h3
    have h4 : ((L - 1 - a) + (p - 1)) % (L - 1) = ((L - 1 - a') + (p' - 1)) % (L - 1) :=
      Nat.ModEq.add_right_cancel' (a + a') h3
    omega

theorem origPos_last (L a : Nat) (hL2 : 2 ≤ L) (ha : a < L - 1) :
    origPos L a (L - 1) = L - 1 - a := by
  unfold origPos
  rw [if_neg (by omega)]
  rw [show (L - 1 - a) + (L - 1 - 1) = (L - 1) + (L - 1 - a - 1) from by omega,
    Nat.add_mod_left, Nat.mod_eq_of_lt (by omega)]
  omega

theorem slotPairOrd_ne (L a j : Nat) (hL : L % 2 = 0) (hL2 : 2 ≤ L)
    (ha : a < L - 1) (hj : j < L / 2) :
    origPos L a j ≠ origPos L a (L - 1 - j) := by
  by_cases hj0 : j = 0
  · subst hj0
    intro h
    have h0 : origPos L a 0 = 0 := by simp [origPos]
    have h1 : origPos L a (L - 1 - 0) = L - 1 - a := by
      rw [Nat.sub_zero]
      exact origPos_last L a hL2 ha
    omega
  · intro h
    rw [origPos_eq_origPos_iff L a a j (L - 1 - j) hL2 (by omega) (by omega)
      (by omega) (by omega)] at h
    have hmq : (a + (j - 1)) ≡ (a + ((L - 1 - j) - 1)) [MOD L - 1] := h
    have hmm : (j - 1) % (L - 1) = ((L - 1 - j) - 1) % (L - 1) :=
      Nat.ModEq.add_left_cancel' a hmq
    rw [Nat.mod_eq_of_lt (by omega), Nat.mod_eq_of_lt (by omega)] at hmm
    omega

theorem sortPair_cases {x y : Nat × Nat} (h : sortPair x = sortPair y) :
    x = y ∨ (x.1 = y.2 ∧ x.2 = y.1) := by
  unfold sortPair at h
  split_ifs at h with h1 h2 h2
  · exact Or.inl h
  · right
    constructor
    · rw [h]
    · rw [h]
  · right
    constructor
    · exact congrArg Prod.snd h
    · exact congrArg Prod.fst h
  · left
    have e1 : (x.2, x.1).1 = (y.2, y.1).1 := by rw [h]
    have e2 : (x.2, x.1).2 = (y.2, y.1).2 := by rw [h]
    exact Prod.ext e2 e1

theorem sortPair_fst_le (x : Nat × Nat) : (sortPair x).1 ≤ (sortPair x).2 := by
  unfold sortPair
  split_ifs with h1
  · exact h1
  · exact Nat.le_of_lt (Nat.lt_of_not_le h1)

theorem slotPairOrd_inj (L : Nat) (hL : L % 2 = 0) (hL2 : 2 ≤ L)
    {a a' j j' : Nat} (ha : a < L - 1) (ha' : a' < L - 1)
    (hj : j < L / 2) (hj' : j' < L / 2)
    (h : sortPair (slotPairOrd L a j) = sortPair (slotPairOrd L a' j')) :
    a = a' ∧ j = j' := by
  have hgcd : Nat.gcd (L - 1) 2 = 1 := by
    rw [Nat.gcd_comm, Nat.gcd_rec]
    rw [show (L - 1) % 2 = 1 from by omega]
    rfl
  have hz : ∀ b, origPos L b 0 = 0 := fun b => by simp [origPos]
  rcases sortPair_cases h with hc | hc
  · have e1 : origPos L a j = origPos L a' j' := congrArg Prod.fst hc
    have e2 : origPos L a (L - 1 - j) = origPos L a' (L - 1 - j') := congrArg Prod.snd hc
    by_cases hj0 : j = 0
    · by_cases hj'0 : j' = 0
      · subst hj0
        subst hj'0
        refine ⟨?_, rfl⟩
        rw [Nat.sub_zero] at e2
        rw [origPos_last L a hL2 ha, origPos_last L a' hL2 ha'] at e2
        omega
      · exfalso
        have hp := origPos_pos L a' j' hj'0
        rw [hj0, hz a] at e1
        omega
    · by_cases hj'0 : j' = 0
      · exfalso
        have hp := origPos_pos L a j hj0
        rw [hj'0, hz a'] at e1
        omega
      · rw [origPos_eq_origPos_iff L a a' j j' hL2 (by omega) (by omega)
          (by omega) (by omega)] at e1
        rw [origPos_eq_origPos_iff L a a' (L - 1 - j) (L - 1 - j') hL2 (by omega) (by omega)
          (by omega) (by omega)] at e2
        have m1 : (a' + (j - 1)) ≡ (a + (j' - 1)) [MOD L - 1] := e1
        have m2 : (a' + ((L - 1 - j) - 1)) ≡ (a + ((L - 1 - j') - 1)) [MOD L - 1] := e2
        have msum := m1.add m2
        rw [show (a' + (j - 1)) + (a' + ((L - 1 - j) - 1)) = 2 * a' + (L - 3) from by omega,
          show (a + (j' - 1)) + (a + ((L - 1 - j') - 1)) = 2 * a + (L - 3) from by omega]
          at msum
        have msum2 := Nat.ModEq.add_right_cancel' (L - 3) msum
        have haa : a' ≡ a [MOD L - 1] := Nat.ModEq.cancel_left_of_coprime hgcd msum2
        have haa' : a' % (L - 1) = a % (L - 1) := haa
        rw [Nat.mod_eq_of_lt ha', Nat.mod_eq_of_lt ha] at haa'
        refine ⟨haa'.symm, ?_⟩
        rw [haa'] at m1
        have mj : (j - 1) % (L - 1) = (j' - 1) % (L - 1) :=
          Nat.ModEq.add_left_cancel' a m1
        rw [Nat.mod_eq_of_lt (by omega), Nat.mod_eq_of_lt (by omega)] at mj
        omega
  · have e1 : origPos L a j = origPos L a' (L - 1 - j') := hc.1
    have e2 : origPos L a (L - 1 - j) = origPos L a' j' := hc.2
    by_cases hj0 : j = 0
    · exfalso
      have hp : 1 ≤ origPos L a' (L - 1 - j') := origPos_pos L a' (L - 1 - j') (by omega)
      rw [hj0, hz a] at e1
      omega
    · by_cases hj'0 : j' = 0
      · exfalso
        have hp : 1 ≤ origPos L a (L - 1 - j) := origPos_pos L a (L - 1 - j) (by omega)
        rw [hj'0, hz a'] at e2
        omega
      · exfalso
        rw [origPos_eq_origPos_iff L a a' j (L - 1 - j') hL2 (by omega) (by omega)
          (by omega) (by omega)] at e1
        rw [origPos_eq_origPos_iff L a a' (L - 1 - j) j' hL2 (by omega) (by omega)
          (by omega) (by omega)] at e2
        have m1 : (a' + (j - 1)) ≡ (a + ((L - 1 - j') - 1)) [MOD L - 1] := e1
        have m2 : (a' + ((L - 1 - j) - 1)) ≡ (a + (j' - 1)) [MOD L - 1] := e2
        have msum := m1.add m2
        rw [show (a' + (j - 1)) + (a' + ((L - 1 - j) - 1)) = 2 * a' + (L - 3) from by omega,
          show (a + ((L - 1 - j') - 1)) + (a + (j' - 1)) = 2 * a + (L - 3) from by omega]
          at msum
        have msum2 := Nat.ModEq.add_right_cancel' (L - 3) msum
        have haa : a' ≡ a [MOD L - 1] := Nat.ModEq.cancel_left_of_coprime hgcd msum2
        have haa' : a' % (L - 1) = a % (L - 1) := haa
        rw [Nat.mod_eq_of_lt ha', Nat.mod_eq_of_lt ha] at haa'
        rw [haa'] at m1
        have mj : (j - 1) % (L - 1) = ((L - 1 - j') - 1) % (L - 1) :=
          Nat.ModEq.add_left_cancel' a m1
        rw [Nat.mod_eq_of_lt (by omega), Nat.mod_eq_of_lt (by omega)] at mj
        omega

theorem nodup_allSlotPairs (L : Nat) (hL : L % 2 = 0) (hL2 : 2 ≤ L) :
    (allSlotPairs L).Nodup := by
  unfold allSlotPairs
  rw [List.nodup_flatMap]
  constructor
  · intro a haR
    rw [List.mem_range] at haR
    apply (List.nodup_range (L / 2)).map_on
    intro j hjR j' hj'R heq
    rw [List.mem_range] at hjR hj'R
    exact (slotPairOrd_inj L hL hL2 haR haR hjR hj'R heq).2
  · refine List.Pairwise.imp_of_mem ?_ (List.pairwise_lt_range (L - 1))
    intro a a' hma hma' hlt
    rw [List.mem_range] at hma hma'
    intro x hx hx'
    rw [List.mem_map] at hx hx'
    obtain ⟨j, hjR, hj⟩ := hx
    obtain ⟨j', hj'R, hj'⟩ := hx'
    rw [List.mem_range] at hjR hj'R
    have := slotPairOrd_inj L hL hL2 hma hma' hjR hj'R (hj.trans hj'.symm)
    omega

theorem sortPair_mem_allPairsList {u v L : Nat} (huv : u ≠ v) (hu : u < L) (hv : v < L) :
    sortPair (u, v) ∈ allPairsList L := by
  by_cases h : u ≤ v
  · have he : sortPair (u, v) = (u, v) := by
      unfold sortPair
      rw [if_pos h]
    rw [he, mem_allPairsList]
    omega
  · have he : sortPair (u, v) = (v, u) := by
      unfold sortPair
      rw [if_neg h]
    rw [he, mem_allPairsList]
    omega

theorem allSlotPairs_subset (L : Nat) (hL : L % 2 = 0) (hL2 : 2 ≤ L) :
    allSlotPairs L ⊆ allPairsList L := by
  intro x hx
  unfold allSlotPairs at hx
  rw [List.mem_flatMap] at hx
  obtain ⟨a, haR, hx⟩ := hx
  rw [List.mem_range] at haR
  rw [List.mem_map] at hx
  obtain ⟨j, hjR, hj⟩ := hx
  rw [List.mem_range] at hjR
  subst hj
  have hne := slotPairOrd_ne L a j hL hL2 haR hjR
  have h1 : origPos L a j < L := origPos_lt L a j (by omega)
  have h2 : origPos L a (L - 1 - j) < L := origPos_lt L a (L - 1 - j) (by omega)
  exact sortPair_mem_allPairsList hne h1 h2

theorem allSlotPairs_perm (L : Nat) (hL : L % 2 = 0) (hL2 : 2 ≤ L) :
    List.Perm (allSlotPairs L) (allPairsList L) := by
  apply List.Subperm.perm_of_length_le
  · exact List.subperm_of_subset (nodup_allSlotPairs L hL hL2) (allSlotPairs_subset L hL hL2)
  · rw [length_allPairsList, length_allSlotPairs]
    have h1 : 2 * (List.range L).sum = L * (L - 1) := two_mul_sum_range L
    have h2 : 2 * ((L - 1) * (L / 2)) = L * (L - 1) := by
      obtain ⟨k, hk⟩ := Nat.dvd_of_mod_eq_zero hL
      subst hk
      rw [show 2 * k / 2 = k from by omega]
      ring
    omega

theorem countP_allSlotPairs (L p q : Nat) (hL : L % 2 = 0) (hL2 : 2 ≤ L)
    (hpq : p < q) (hq : q < L) :
    (allSlotPairs L).countP (fun x => decide (x = (p, q))) = 1 := by
  rw [(allSlotPairs_perm L hL hL2).countP_eq]
  exact countP_allPairsList L p q hpq hq

theorem allPairsList_succ (L : Nat) :
    allPairsList (L + 1) = allPairsList L ++ (List.range L).map (fun p => (p, L)) := by
  unfold allPairsList
  rw [List.range_succ, List.flatMap_append]
  simp

theorem countP_contains_allPairsList : ∀ (L t : Nat), t < L →
    (allPairsList L).countP (fun x => decide (x.1 = t ∨ x.2 = t)) = L - 1 := by
  intro L
  induction L with
  | zero => intro t ht; omega
  | succ L ih =>
    intro t ht
    rw [allPairsList_succ, List.countP_append, List.countP_map]
    by_cases htL : t < L
    · rw [ih t htL]
      have hone : List.countP
          ((fun x : Nat × Nat => decide (x.1 = t ∨ x.2 = t)) ∘ fun p => (p, L))
          (List.range L) = 1 := by
        have hcg : List.countP
            ((fun x : Nat × Nat => decide (x.1 = t ∨ x.2 = t)) ∘ fun p => (p, L))
            (List.range L)
            = List.countP (fun p => decide (p = t)) (List.range L) := by
          apply List.countP_congr
          intro p hp
          rw [List.mem_range] at hp
          simp only [Function.comp_apply, decide_eq_true_eq]
          constructor
          · rintro (h | h)
            · exact h
            · omega
          · intro h
            exact Or.inl h
        rw [hcg]
        exact countP_eq_one_of_nodup_mem (List.nodup_range L) (List.mem_range.mpr htL)
      omega
    · have htL' : t = L := by omega
      rw [htL']
      have hzero : (allPairsList L).countP (fun x => decide (x.1 = L ∨ x.2 = L)) = 0 := by
        rw [List.countP_eq_zero]
        intro x hx
        rcases x with ⟨p, q⟩
        rw [mem_allPairsList] at hx
        simp only [decide_eq_true_eq]
        omega
      rw [hzero]
      have hall : List.countP
          ((fun x : Nat × Nat => decide (x.1 = L ∨ x.2 = L)) ∘ fun p => (p, L))
          (List.range L) = L := by
        have : ∀ p ∈ List.range L,
            ((fun x : Nat × Nat => decide (x.1 = L ∨ x.2 = L)) ∘ fun p => (p, L)) p = true := by
          intro p _
          simp
        rw [List.countP_eq_length.mpr this]
        exact List.length_range L
      omega

theorem countP_contains_allSlotPairs (L t : Nat) (hL : L % 2 = 0) (hL2 : 2 ≤ L)
    (ht : t < L) :
    (allSlotPairs L).countP (fun x => decide (x.1 = t ∨ x.2 = t)) = L - 1 := by
  rw [(allSlotPairs_perm L hL hL2).countP_eq]
  exact countP_contains_allPairsList L t ht

end PairCombinatorics

/-! ## From fixtures and rounds to slot-pair counting -/

section RoundCounting

variable {α : Type}

theorem getD_mem {γ : Type} (items : List γ) (d : γ) {u : Nat} (hu : u < items.length) :
    items.getD u d ∈ items := by
  rw [List.getD_eq_getElem _ _ hu]
  exact List.getElem_mem hu

theorem getD_inj (items : List (RobinItem α)) (hnd : items.Nodup)
    {u w : Nat} (hu : u < items.length) (hw : w < items.length)
    (h : items.getD u default = items.getD w default) : u = w := by
  rw [List.getD_eq_getElem _ _ hu, List.getD_eq_getElem _ _ hw] at h
  exact hnd.getElem_inj_iff.mp h

theorem getFixture_shiftRobin [DecidableEq α] (items : List (RobinItem α)) (a : Nat) :
    getFixture (shiftRobin a items)
      = (List.range (items.length / 2)).filterMap (fun j =>
          mkGame items (origPos items.length a j)
            (origPos items.length a (items.length - 1 - j))) := by
  unfold getFixture
  rw [length_shiftRobin]
  apply List.filterMap_congr
  intro j hj
  rw [List.mem_range] at hj
  unfold mkGame
  rw [getD_shiftRobin a items default j (by omega),
    getD_shiftRobin a items default (items.length - 1 - j) (by omega)]

theorem getRound_eq_offsets_map [DecidableEq α] (r : Nat → Nat) (items : List (RobinItem α)) :
    getRound r items
      = (0 :: getShiftsOrder r (items.length - 1)).map
          (fun a => getFixture (shiftRobin a items)) := by
  unfold getRound
  rw [List.map_cons, shiftRobin_zero]

theorem range_eq_cons_codeRange (L : Nat) (hL2 : 2 ≤ L) :
    List.range (L - 1) = 0 :: codeRange 1 (L - 1) := by
  rw [show L - 1 = (L - 2) + 1 from by omega, List.range_succ_eq_map]
  congr 1

theorem offsets_perm (r : Nat → Nat) (L : Nat) (hL2 : 2 ≤ L) :
    List.Perm (0 :: getShiftsOrder r (L - 1)) (List.range (L - 1)) := by
  rw [range_eq_cons_codeRange L hL2]
  exact (shuffle_perm r (codeRange 1 (L - 1))).cons 0

theorem countP_round [DecidableEq α] (r : Nat → Nat) (items : List (RobinItem α))
    (p : RobinItem α × RobinItem α → Bool) (hL2 : 2 ≤ items.length) :
    ((getRound r items).flatten.countP p)
      = ((List.range (items.length - 1)).map
          (fun a => (getFixture (shiftRobin a items)).countP p)).sum := by
  rw [getRound_eq_offsets_map, List.countP_flatten, List.map_map]
  exact ((offsets_perm r items.length hL2).map
    (fun a => (getFixture (shiftRobin a items)).countP p)).sum_eq

theorem length_round [DecidableEq α] (r : Nat → Nat) (items : List (RobinItem α))
    (hL2 : 2 ≤ items.length) :
    ((getRound r items).flatten.length)
      = ((List.range (items.length - 1)).map
          (fun a => (getFixture (shiftRobin a items)).length)).sum := by
  rw [getRound_eq_offsets_map, List.length_flatten, List.map_map]
  exact ((offsets_perm r items.length hL2).map
    (fun a => (getFixture (shiftRobin a items)).length)).sum_eq

theorem sortPair_swap (a b : Nat) : sortPair (b, a) = sortPair (a, b) := by
  unfold sortPair
  split_ifs with h1 h2 h2
  · have e1 : b = a := Nat.le_antisymm h1 h2
    rw [e1]
  · rfl
  · rfl
  · omega

theorem resolvePair_no_self [DecidableEq α] (l0 r0 : RobinItem α)
    (h1 : l0 ≠ RobinItem.selfS) (h2 : r0 ≠ RobinItem.selfS) :
    resolvePair l0 r0
      = if l0 ≠ RobinItem.restS ∧ r0 ≠ RobinItem.restS then some (l0, r0) else none := by
  cases l0 with
  | selfS => exact absurd rfl h1
  | participant za =>
    cases r0 with
    | selfS => exact absurd rfl h2
    | participant zb => simp [resolvePair, isSentry]
    | restS => simp [resolvePair, isSentry]
  | restS =>
    cases r0 with
    | selfS => exact absurd rfl h2
    | participant zb => simp [resolvePair, isSentry]
    | restS => simp [resolvePair, isSentry]

theorem mkGame_no_self [DecidableEq α] (items : List (RobinItem α))
    (hself : RobinItem.selfS ∉ items) {u v : Nat}
    (hu : u < items.length) (hv : v < items.length) :
    mkGame items u v
      = if items.getD u default ≠ RobinItem.restS ∧ items.getD v default ≠ RobinItem.restS
          then some (items.getD u default, items.getD v default) else none := by
  have h1 : items.getD u default ≠ RobinItem.selfS := fun he => hself (he ▸ getD_mem items default hu)
  have h2 : items.getD v default ≠ RobinItem.selfS := fun he => hself (he ▸ getD_mem items default hv)
  unfold mkGame
  exact resolvePair_no_self _ _ h1 h2

theorem sum_map_add {γ : Type} (l : List γ) (f g : γ → Nat) :
    (l.map (fun a => f a + g a)).sum = (l.map f).sum + (l.map g).sum := by
  induction l with
  | nil => rfl
  | cons a l ih =>
    simp only [List.map_cons, List.sum_cons, ih]
    omega

theorem sum_countP_slot (L : Nat) (q : Nat × Nat → Bool) :
    ((List.range (L - 1)).map
        (fun a => (List.range (L / 2)).countP
          (fun j => q (sortPair (slotPairOrd L a j))))).sum
      = (allSlotPairs L).countP q := by
  unfold allSlotPairs
  rw [List.countP_flatMap]
  congr 1
  apply List.map_congr_left
  intro a _
  show List.countP (fun j => q (sortPair (slotPairOrd L a j))) (List.range (L / 2))
      = List.countP q (List.map (fun j => sortPair (slotPairOrd L a j)) (List.range (L / 2)))
  rw [List.countP_map]
  rfl

theorem countP_fixture_pair [DecidableEq α] (items : List (RobinItem α))
    (hnd : items.Nodup) (hself : RobinItem.selfS ∉ items)
    {x y : α} {px py : Nat} (hpx : px < items.length) (hpy : py < items.length)
    (hgx : items.getD px default = RobinItem.participant x)
    (hgy : items.getD py default = RobinItem.participant y) (a : Nat) :
    (getFixture (shiftRobin a items)).countP
        (fun g => decide (g = (RobinItem.participant x, RobinItem.participant y)
          ∨ g = (RobinItem.participant y, RobinItem.participant x)))
      = (List.range (items.length / 2)).countP
          (fun j => decide (sortPair (slotPairOrd items.length a j) = sortPair (px, py))) := by
  rw [getFixture_shiftRobin, List.countP_filterMap]
  apply List.countP_congr
  intro j hj
  rw [List.mem_range] at hj
  have hu : origPos items.length a j < items.length := origPos_lt _ _ _ (by omega)
  have hv : origPos items.length a (items.length - 1 - j) < items.length :=
    origPos_lt _ _ _ (by omega)
  rw [mkGame_no_self items hself hu hv]
  by_cases hcr : items.getD (origPos items.length a j) default ≠ RobinItem.restS
      ∧ items.getD (origPos items.length a (items.length - 1 - j)) default ≠ RobinItem.restS
  · rw [if_pos hcr]
    rw [Option.map_some', Option.getD_some]
    constructor
    · intro hp
      rw [decide_eq_true_eq] at hp
      rw [decide_eq_true_eq]
      rcases hp with hp | hp
      · have e1 : items.getD (origPos items.length a j) default = RobinItem.participant x :=
          congrArg Prod.fst hp
        have e2 : items.getD (origPos items.length a (items.length - 1 - j)) default
            = RobinItem.participant y := congrArg Prod.snd hp
        have hu1 : origPos items.length a j = px :=
          getD_inj items hnd hu hpx (e1.trans hgx.symm)
        have hv1 : origPos items.length a (items.length - 1 - j) = py :=
          getD_inj items hnd hv hpy (e2.trans hgy.symm)
        show sortPair (origPos items.length a j,
          origPos items.length a (items.length - 1 - j)) = sortPair (px, py)
        rw [hu1, hv1]
      · have e1 : items.getD (origPos items.length a j) default = RobinItem.participant y :=
          congrArg Prod.fst hp
        have e2 : items.getD (origPos items.length a (items.length - 1 - j)) default
            = RobinItem.participant x := congrArg Prod.snd hp
        have hu1 : origPos items.length a j = py :=
          getD_inj items hnd hu hpy (e1.trans hgy.symm)
        have hv1 : origPos items.length a (items.length - 1 - j) = px :=
          getD_inj items hnd hv hpx (e2.trans hgx.symm)
        show sortPair (origPos items.length a j,
          origPos items.length a (items.length - 1 - j)) = sortPair (px, py)
        rw [hu1, hv1]
        exact sortPair_swap px py
    · intro hs
      rw [decide_eq_true_eq] at hs
      rw [decide_eq_true_eq]
      rcases sortPair_cases hs with hc | hc
      · have hu1 : origPos items.length a j = px := congrArg Prod.fst hc
        have hv1 : origPos items.length a (items.length - 1 - j) = py := congrArg Prod.snd hc
        left
        rw [hu1, hv1, hgx, hgy]
      · have hu1 : origPos items.length a j = py := hc.1
        have hv1 : origPos items.length a (items.length - 1 - j) = px := hc.2
        right
        rw [hu1, hv1, hgx, hgy]
  · rw [if_neg hcr]
    rw [Option.map_none', Option.getD_none]
    constructor
    · intro h
      exact absurd h (by simp)
    · intro hs
      exfalso
      rw [decide_eq_true_eq] at hs
      apply hcr
      rcases sortPair_cases hs with hc | hc
      · have hu1 : origPos items.length a j = px := congrArg Prod.fst hc
        have hv1 : origPos items.length a (items.length - 1 - j) = py := congrArg Prod.snd hc
        constructor
        · rw [hu1, hgx]
          intro hcon
          exact RobinItem.noConfusion hcon
        · rw [hv1, hgy]
          intro hcon
          exact RobinItem.noConfusion hcon
      · have hu1 : origPos items.length a j = py := hc.1
        have hv1 : origPos items.length a (items.length - 1 - j) = px := hc.2
        constructor
        · rw [hu1, hgy]
          intro hcon
          exact RobinItem.noConfusion hcon
        · rw [hv1, hgx]
          intro hcon
          exact RobinItem.noConfusion hcon

theorem countP_pair_round [DecidableEq α] (r : Nat → Nat) (items : List (RobinItem α))
    (hL : items.length % 2 = 0) (hnd : items.Nodup) (hself : RobinItem.selfS ∉ items)
    {x y : α} (hx : RobinItem.participant x ∈ items) (hy : RobinItem.participant y ∈ items)
    (hxy : x ≠ y) :
    (getRound r items).flatten.countP
        (fun g => decide (g = (RobinItem.participant x, RobinItem.participant y)
          ∨ g = (RobinItem.participant y, RobinItem.participant x))) = 1 := by
  obtain ⟨px, hpx, hgx0⟩ := List.getElem_of_mem hx
  obtain ⟨py, hpy, hgy0⟩ := List.getElem_of_mem hy
  have hgx : items.getD px default = RobinItem.participant x := by
    rw [List.getD_eq_getElem _ _ hpx]
    exact hgx0
  have hgy : items.getD py default = RobinItem.participant y := by
    rw [List.getD_eq_getElem _ _ hpy]
    exact hgy0
  have hpxy : px ≠ py := by
    intro he
    rw [he] at hgx
    rw [hgx] at hgy
    exact hxy (RobinItem.participant.inj hgy)
  have hL2 : 2 ≤ items.length := by omega
  rw [countP_round r items _ hL2]
  rw [List.map_congr_left (fun a ha0 =>
    countP_fixture_pair items hnd hself hpx hpy hgx hgy a)]
  rw [sum_countP_slot items.length (fun z => decide (z = sortPair (px, py)))]
  rcases Nat.lt_or_ge px py with hlt | hge
  · rw [show sortPair (px, py) = (px, py) from by
      unfold sortPair
      rw [if_pos (Nat.le_of_lt hlt)]]
    exact countP_allSlotPairs items.length px py hL hL2 hlt hpy
  · have hlt : py < px := by omega
    rw [show sortPair (px, py) = (py, px) from by
      unfold sortPair
      rw [if_neg (by omega)]]
    exact countP_allSlotPairs items.length py px hL hL2 hlt hpx

theorem countP_not_add {γ : Type} (p : γ → Bool) (l : List γ) :
    l.countP p + l.countP (fun a => !(p a)) = l.length := by
  induction l with
  | nil => rfl
  | cons a l ih =>
    rw [List.countP_cons, List.countP_cons, List.length_cons]
    by_cases h : p a = true
    · rw [if_pos h, if_neg (by simp [h])]
      omega
    · rw [if_neg h, if_pos (by simp [Bool.not_eq_true] at h ⊢; exact h)]
      omega

theorem sortPair_contains (u v t : Nat) :
    ((sortPair (u, v)).1 = t ∨ (sortPair (u, v)).2 = t) ↔ (u = t ∨ v = t) := by
  unfold sortPair
  split_ifs with h1
  · exact Iff.rfl
  · exact Or.comm

theorem length_fixture_no_sentry [DecidableEq α] (items : List (RobinItem α))
    (hself : RobinItem.selfS ∉ items) (hrest : RobinItem.restS ∉ items) (a : Nat) :
    (getFixture (shiftRobin a items)).length = items.length / 2 := by
  rw [getFixture_shiftRobin, List.length_filterMap_eq_countP]
  rw [List.countP_eq_length.mpr ?_]
  · exact List.length_range _
  · intro j hj
    rw [List.mem_range] at hj
    have hu : origPos items.length a j < items.length := origPos_lt _ _ _ (by omega)
    have hv : origPos items.length a (items.length - 1 - j) < items.length :=
      origPos_lt _ _ _ (by omega)
    rw [mkGame_no_self items hself hu hv]
    rw [if_pos ⟨fun he => hrest (he ▸ getD_mem items default hu),
      fun he => hrest (he ▸ getD_mem items default hv)⟩]
    rfl

theorem length_round_no_sentry [DecidableEq α] (r : Nat → Nat) (items : List (RobinItem α))
    (hL2 : 2 ≤ items.length) (hself : RobinItem.selfS ∉ items)
    (hrest : RobinItem.restS ∉ items) :
    (getRound r items).flatten.length = (items.length - 1) * (items.length / 2) := by
  rw [length_round r items hL2]
  rw [List.map_congr_left (fun a _ => length_fixture_no_sentry items hself hrest a)]
  rw [List.map_const', List.sum_const_nat, List.length_range]

theorem length_fixture_rest_last [DecidableEq α] (items : List (RobinItem α))
    (hnd : items.Nodup) (hself : RobinItem.selfS ∉ items)
    (hrest : items.getD (items.length - 1) default = RobinItem.restS) (a : Nat) :
    (getFixture (shiftRobin a items)).length
      + (List.range (items.length / 2)).countP
          (fun j => decide ((sortPair (slotPairOrd items.length a j)).1 = items.length - 1
            ∨ (sortPair (slotPairOrd items.length a j)).2 = items.length - 1))
      = items.length / 2 := by
  rw [getFixture_shiftRobin, List.length_filterMap_eq_countP]
  have hpt : ∀ j ∈ List.range (items.length / 2),
      ((mkGame items (origPos items.length a j)
        (origPos items.length a (items.length - 1 - j))).isSome)
        = !(decide ((sortPair (slotPairOrd items.length a j)).1 = items.length - 1
            ∨ (sortPair (slotPairOrd items.length a j)).2 = items.length - 1)) := by
    intro j hj
    rw [List.mem_range] at hj
    have hu : origPos items.length a j < items.length := origPos_lt _ _ _ (by omega)
    have hv : origPos items.length a (items.length - 1 - j) < items.length :=
      origPos_lt _ _ _ (by omega)
    have hpr : items.length - 1 < items.length := by omega
    have hcontains : ((sortPair (slotPairOrd items.length a j)).1 = items.length - 1
        ∨ (sortPair (slotPairOrd items.length a j)).2 = items.length - 1)
        ↔ (origPos items.length a j = items.length - 1
          ∨ origPos items.length a (items.length - 1 - j) = items.length - 1) :=
      sortPair_contains _ _ _
    rw [mkGame_no_self items hself hu hv]
    by_cases hcr : items.getD (origPos items.length a j) default ≠ RobinItem.restS
        ∧ items.getD (origPos items.length a (items.length - 1 - j)) default ≠ RobinItem.restS
    · rw [if_pos hcr]
      have hnc : ¬ ((sortPair (slotPairOrd items.length a j)).1 = items.length - 1
          ∨ (sortPair (slotPairOrd items.length a j)).2 = items.length - 1) := by
        rw [hcontains]
        rintro (hc | hc)
        · exact hcr.1 (by rw [hc]; exact hrest)
        · exact hcr.2 (by rw [hc]; exact hrest)
      simp [hnc]
    · rw [if_neg hcr]
      have hc : (sortPair (slotPairOrd items.length a j)).1 = items.length - 1
          ∨ (sortPair (slotPairOrd items.length a j)).2 = items.length - 1 := by
        rw [hcontains]
        rcases Decidable.not_and_iff_or_not.mp hcr with hc | hc
        · left
          rw [Decidable.not_not] at hc
          exact getD_inj items hnd hu hpr (hc.trans hrest.symm)
        · right
          rw [Decidable.not_not] at hc
          exact getD_inj items hnd hv hpr (hc.trans hrest.symm)
      simp [hc]
  rw [List.countP_congr (fun j hj => by rw [hpt j hj])]
  rw [Nat.add_comm]
  have hca := countP_not_add
    (fun j => decide ((sortPair (slotPairOrd items.length a j)).1 = items.length - 1
      ∨ (sortPair (slotPairOrd items.length a j)).2 = items.length - 1))
    (List.range (items.length / 2))
  rw [List.length_range] at hca
  exact hca

theorem length_round_rest_last [DecidableEq α] (r : Nat → Nat) (items : List (RobinItem α))
    (hL : items.length % 2 = 0) (hL2 : 2 ≤ items.length) (hnd : items.Nodup)
    (hself : RobinItem.selfS ∉ items)
    (hrest : items.getD (items.length - 1) default = RobinItem.restS) :
    (getRound r items).flatten.length
      = (items.length - 1) * (items.length / 2) - (items.length - 1) := by
  rw [length_round r items hL2]
  have hsum : ((List.range (items.length - 1)).map
        (fun a => (getFixture (shiftRobin a items)).length)).sum
      + ((List.range (items.length - 1)).map
          (fun a => (List.range (items.length / 2)).countP
            (fun j => decide ((sortPair (slotPairOrd items.length a j)).1 = items.length - 1
              ∨ (sortPair (slotPairOrd items.length a j)).2 = items.length - 1)))).sum
      = (items.length - 1) * (items.length / 2) := by
    rw [← sum_map_add]
    rw [List.map_congr_left (fun a _ => length_fixture_rest_last items hnd hself hrest a)]
    rw [List.map_const', List.sum_const_nat, List.length_range]
  have hcont : ((List.range (items.length - 1)).map
        (fun a => (List.range (items.length / 2)).countP
          (fun j => decide ((sortPair (slotPairOrd items.length a j)).1 = items.length - 1
            ∨ (sortPair (slotPairOrd items.length a j)).2 = items.length - 1)))).sum
      = items.length - 1 := by
    rw [sum_countP_slot items.length
      (fun z => decide (z.1 = items.length - 1 ∨ z.2 = items.length - 1))]
    exact countP_contains_allSlotPairs items.length (items.length - 1) hL hL2 (by omega)
  omega

theorem resolvePair_eq_self_iff [DecidableEq α] (l0 r0 : RobinItem α) (x : α) :
    resolvePair l0 r0 = some (RobinItem.participant x, RobinItem.participant x)
      ↔ ((l0 = RobinItem.participant x ∧ r0 = RobinItem.selfS)
        ∨ (l0 = RobinItem.selfS ∧ r0 = RobinItem.participant x)
        ∨ (l0 = RobinItem.participant x ∧ r0 = RobinItem.participant x)) := by
  cases l0 with
  | participant za =>
    cases r0 with
    | participant zb => simp [resolvePair, isSentry]
    | selfS => simp [resolvePair, isSentry]
    | restS => simp [resolvePair, isSentry]
  | selfS =>
    cases r0 with
    | participant zb => simp [resolvePair, isSentry]
    | selfS => simp [resolvePair, isSentry]
    | restS => simp [resolvePair, isSentry]
  | restS =>
    cases r0 with
    | participant zb => simp [resolvePair, isSentry]
    | selfS => simp [resolvePair, isSentry]
    | restS => simp [resolvePair, isSentry]

theorem countP_fixture_selfpair [DecidableEq α] (items : List (RobinItem α))
    (hL : items.length % 2 = 0) (hL2 : 2 ≤ items.length) (hnd : items.Nodup)
    {x : α} {px ps : Nat} (hpx : px < items.length) (hps : ps < items.length)
    (hgx : items.getD px default = RobinItem.participant x)
    (hgs : items.getD ps default = RobinItem.selfS)
    (a : Nat) (ha : a < items.length - 1) :
    (getFixture (shiftRobin a items)).countP
        (fun g => decide (g = (RobinItem.participant x, RobinItem.participant x)))
      = (List.range (items.length / 2)).countP
          (fun j => decide (sortPair (slotPairOrd items.length a j) = sortPair (px, ps))) := by
  rw [getFixture_shiftRobin, List.countP_filterMap]
  apply List.countP_congr
  intro j hj
  rw [List.mem_range] at hj
  have hu : origPos items.length a j < items.length := origPos_lt _ _ _ (by omega)
  have hv : origPos items.length a (items.length - 1 - j) < items.length :=
    origPos_lt _ _ _ (by omega)
  have huv : origPos items.length a j ≠ origPos items.length a (items.length - 1 - j) :=
    slotPairOrd_ne items.length a j hL hL2 ha hj
  have hopt : ((mkGame items (origPos items.length a j)
        (origPos items.length a (items.length - 1 - j))).map
      (fun g => decide (g = (RobinItem.participant x, RobinItem.participant x)))).getD false
        = true
      ↔ mkGame items (origPos items.length a j)
          (origPos items.length a (items.length - 1 - j))
        = some (RobinItem.participant x, RobinItem.participant x) := by
    cases hmk : mkGame items (origPos items.length a j)
        (origPos items.length a (items.length - 1 - j)) with
    | none => simp
    | some g =>
      rw [Option.map_some', Option.getD_some, decide_eq_true_eq, Option.some_inj]
  rw [hopt]
  unfold mkGame
  rw [resolvePair_eq_self_iff]
  rw [decide_eq_true_eq]
  constructor
  · rintro (⟨h1, h2⟩ | ⟨h1, h2⟩ | ⟨h1, h2⟩)
    · have hu1 : origPos items.length a j = px := getD_inj items hnd hu hpx (h1.trans hgx.symm)
      have hv1 : origPos items.length a (items.length - 1 - j) = ps :=
        getD_inj items hnd hv hps (h2.trans hgs.symm)
      show sortPair (origPos items.length a j,
        origPos items.length a (items.length - 1 - j)) = sortPair (px, ps)
      rw [hu1, hv1]
    · have hu1 : origPos items.length a j = ps := getD_inj items hnd hu hps (h1.trans hgs.symm)
      have hv1 : origPos items.length a (items.length - 1 - j) = px :=
        getD_inj items hnd hv hpx (h2.trans hgx.symm)
      show sortPair (origPos items.length a j,
        origPos items.length a (items.length - 1 - j)) = sortPair (px, ps)
      rw [hu1, hv1]
      exact sortPair_swap px ps
    · exfalso
      have hu1 : origPos items.length a j = px := getD_inj items hnd hu hpx (h1.trans hgx.symm)
      have hv1 : origPos items.length a (items.length - 1 - j) = px :=
        getD_inj items hnd hv hpx (h2.trans hgx.symm)
      exact huv (hu1.trans hv1.symm)
  · intro hs
    rcases sortPair_cases hs with hc | hc
    · have hu1 : origPos items.length a j = px := congrArg Prod.fst hc
      have hv1 : origPos items.length a (items.length - 1 - j) = ps := congrArg Prod.snd hc
      left
      exact ⟨by rw [hu1]; exact hgx, by rw [hv1]; exact hgs⟩
    · have hu1 : origPos items.length a j = ps := hc.1
      have hv1 : origPos items.length a (items.length - 1 - j) = px := hc.2
      right
      left
      exact ⟨by rw [hu1]; exact hgs, by rw [hv1]; exact hgx⟩

theorem count_selfpair_round [DecidableEq α] (r : Nat → Nat) (items : List (RobinItem α))
    (hL : items.length % 2 = 0) (hnd : items.Nodup)
    {x : α} (hx : RobinItem.participant x ∈ items) (hs : RobinItem.selfS ∈ items) :
    (getRound r items).flatten.countP
        (fun g => decide (g = (RobinItem.participant x, RobinItem.participant x))) = 1 := by
  obtain ⟨px, hpx, hgx0⟩ := List.getElem_of_mem hx
  obtain ⟨ps, hps, hgs0⟩ := List.getElem_of_mem hs
  have hgx : items.getD px default = RobinItem.participant x := by
    rw [List.getD_eq_getElem _ _ hpx]
    exact hgx0
  have hgs : items.getD ps default = RobinItem.selfS := by
    rw [List.getD_eq_getElem _ _ hps]
    exact hgs0
  have hpxs : px ≠ ps := by
    intro he
    rw [he, hgs] at hgx
    exact RobinItem.noConfusion hgx
  have hL2 : 2 ≤ items.length := by omega
  rw [countP_round r items _ hL2]
  rw [List.map_congr_left (fun a ha0 =>
    countP_fixture_selfpair items hL hL2 hnd hpx hps hgx hgs a
      (by rw [List.mem_range] at ha0; exact ha0))]
  rw [sum_countP_slot items.length (fun z => decide (z = sortPair (px, ps)))]
  rcases Nat.lt_or_ge px ps with hlt | hge
  · rw [show sortPair (px, ps) = (px, ps) from by
      unfold sortPair
      rw [if_pos (Nat.le_of_lt hlt)]]
    exact countP_allSlotPairs items.length px ps hL hL2 hlt hps
  · have hlt : ps < px := by omega
    rw [show sortPair (px, ps) = (ps, px) from by
      unfold sortPair
      rw [if_neg (by omega)]]
    exact countP_allSlotPairs items.length ps px hL hL2 hlt hpx

theorem two_le_countP {γ : Type} (d : γ) (p : γ → Bool) (l : List γ) :
    ∀ (u v : Nat), u < v → v < l.length →
      p (l.getD u d) = true → p (l.getD v d) = true → 2 ≤ l.countP p := by
  induction l with
  | nil =>
    intro u v _ hv _ _
    simp at hv
  | cons a t ih =>
    intro u v huv hv hpu hpv
    rw [List.countP_cons]
    cases u with
    | zero =>
      rw [List.getD_cons_zero] at hpu
      cases v with
      | zero => omega
      | succ w =>
        rw [List.getD_cons_succ] at hpv
        have hw : w < t.length := by simpa using hv
        have h1 : 0 < t.countP p :=
          List.countP_pos_iff.mpr ⟨t.getD w d, getD_mem t d hw, hpv⟩
        rw [if_pos hpu]
        omega
    | succ s =>
      cases v with
      | zero => omega
      | succ w =>
        rw [List.getD_cons_succ] at hpu
        rw [List.getD_cons_succ] at hpv
        have := ih s w (by omega) (by simpa using hv) hpu hpv
        omega

theorem resolvePair_some_participants [DecidableEq α] {l0 r0 : RobinItem α}
    {g : RobinItem α × RobinItem α}
    (h : resolvePair l0 r0 = some g) (hnotboth : ¬(l0 = RobinItem.selfS ∧ r0 = RobinItem.selfS)) :
    ∃ b c : α, g = (RobinItem.participant b, RobinItem.participant c)
      ∧ (RobinItem.participant b = l0 ∨ RobinItem.participant b = r0)
      ∧ (RobinItem.participant c = l0 ∨ RobinItem.participant c = r0) := by
  cases l0 with
  | participant za =>
    cases r0 with
    | participant zb =>
      refine ⟨za, zb, ?_, Or.inl rfl, Or.inr rfl⟩
      simp [resolvePair, isSentry] at h
      exact h.symm
    | selfS =>
      refine ⟨za, za, ?_, Or.inl rfl, Or.inl rfl⟩
      simp [resolvePair, isSentry] at h
      exact h.symm
    | restS => simp [resolvePair, isSentry] at h
  | selfS =>
    cases r0 with
    | participant zb =>
      refine ⟨zb, zb, ?_, Or.inr rfl, Or.inr rfl⟩
      simp [resolvePair, isSentry] at h
      exact h.symm
    | selfS => exact absurd ⟨rfl, rfl⟩ hnotboth
    | restS => simp [resolvePair, isSentry] at h
  | restS =>
    cases r0 with
    | participant zb => simp [resolvePair, isSentry] at h
    | selfS => simp [resolvePair, isSentry] at h
    | restS => simp [resolvePair, isSentry] at h

theorem mem_round_games [DecidableEq α] (r : Nat → Nat) (items : List (RobinItem α))
    (hL : items.length % 2 = 0)
    (hone : items.countP (fun it => decide (it = RobinItem.selfS)) ≤ 1) :
    ∀ g ∈ (getRound r items).flatten, ∃ b c : α,
      RobinItem.participant b ∈ items ∧ RobinItem.participant c ∈ items
        ∧ g = (RobinItem.participant b, RobinItem.participant c) := by
  intro g hg
  rw [List.mem_flatten] at hg
  obtain ⟨fixture, hfix, hgf⟩ := hg
  rw [getRound_eq_offsets_map] at hfix
  rw [List.mem_map] at hfix
  obtain ⟨a, _, hfa⟩ := hfix
  subst hfa
  unfold getFixture at hgf
  rw [List.mem_filterMap] at hgf
  obtain ⟨j, hjR, hmk⟩ := hgf
  rw [List.mem_range, length_shiftRobin] at hjR
  have harr : List.Perm (shiftRobin a items) items := shiftRobin_perm a items
  have hlen : (shiftRobin a items).length = items.length := length_shiftRobin a items
  have hj2 : j < items.length := by omega
  have hvlt : (shiftRobin a items).length - 1 - j < (shiftRobin a items).length := by omega
  have hult : j < (shiftRobin a items).length := by omega
  have hne : j ≠ (shiftRobin a items).length - 1 - j := by
    intro he
    rw [hlen] at he
    omega
  unfold mkGame at hmk
  have hnotboth : ¬((shiftRobin a items).getD j default = RobinItem.selfS
      ∧ (shiftRobin a items).getD ((shiftRobin a items).length - 1 - j) default
        = RobinItem.selfS) := by
    rintro ⟨hc1, hc2⟩
    have htwo : 2 ≤ (shiftRobin a items).countP (fun it => decide (it = RobinItem.selfS)) := by
      rcases Nat.lt_or_ge j ((shiftRobin a items).length - 1 - j) with ho | ho
      · exact two_le_countP default _ _ j _ ho hvlt (by rw [hc1]; simp) (by rw [hc2]; simp)
      · have ho2 : (shiftRobin a items).length - 1 - j < j := by omega
        exact two_le_countP default _ _ _ j ho2 hult (by rw [hc2]; simp) (by rw [hc1]; simp)
    rw [harr.countP_eq] at htwo
    omega
  obtain ⟨b, c, hbc, hbm, hcm⟩ := resolvePair_some_participants hmk hnotboth
  refine ⟨b, c, ?_, ?_, hbc⟩
  · rcases hbm with hb | hb
    · exact harr.mem_iff.mp (hb ▸ getD_mem _ default hult)
    · exact harr.mem_iff.mp (hb ▸ getD_mem _ default hvlt)
  · rcases hcm with hc | hc
    · exact harr.mem_iff.mp (hc ▸ getD_mem _ default hult)
    · exact harr.mem_iff.mp (hc ▸ getD_mem _ default hvlt)

end RoundCounting

/-! ## Facts about the prepared field -/

section PreparedField

variable {α : Type}

/-- The field right before the oddness check in `createTournament`:
shuffled participants plus the optional SELF slot. -/
def basePrepared (r : Nat → Nat) (options : TouranmentOptions) (arr : List α) :
    List (RobinItem α) :=
  (shuffle r arr).map RobinItem.participant
    ++ (if options.playSelf then [RobinItem.selfS] else [])

theorem prepareRobinItems_eq_base (r : Nat → Nat) (options : TouranmentOptions)
    (arr : List α) :
    prepareRobinItems r options arr
      = basePrepared r options arr
        ++ (if (basePrepared r options arr).length % 2 ≠ 0
            then [RobinItem.restS] else []) := by
  unfold prepareRobinItems basePrepared
  split_ifs <;> simp_all

theorem length_basePrepared (r : Nat → Nat) (options : TouranmentOptions) (arr : List α) :
    (basePrepared r options arr).length
      = arr.length + (if options.playSelf then 1 else 0) := by
  unfold basePrepared
  by_cases hps : options.playSelf <;> simp [hps, length_shuffle]

theorem restS_not_mem_basePrepared (r : Nat → Nat) (options : TouranmentOptions)
    (arr : List α) : RobinItem.restS ∉ basePrepared r options arr := by
  unfold basePrepared
  intro h
  rw [List.mem_append] at h
  rcases h with h | h
  · rw [List.mem_map] at h
    obtain ⟨z, _, hz⟩ := h
    exact RobinItem.noConfusion hz
  · by_cases hps : options.playSelf <;> simp [hps] at h

theorem selfS_mem_basePrepared_iff (r : Nat → Nat) (options : TouranmentOptions)
    (arr : List α) :
    RobinItem.selfS ∈ basePrepared r options arr ↔ options.playSelf = true := by
  unfold basePrepared
  rw [List.mem_append]
  constructor
  · rintro (h | h)
    · rw [List.mem_map] at h
      obtain ⟨z, _, hz⟩ := h
      exact absurd hz (fun hc => RobinItem.noConfusion hc)
    · by_cases hps : options.playSelf
      · exact hps
      · simp [hps] at h
  · intro hps
    right
    simp [hps]

theorem participant_mem_basePrepared_iff (r : Nat → Nat) (options : TouranmentOptions)
    (arr : List α) (x : α) :
    RobinItem.participant x ∈ basePrepared r options arr ↔ x ∈ arr := by
  unfold basePrepared
  rw [List.mem_append]
  constructor
  · rintro (h | h)
    · rw [List.mem_map] at h
      obtain ⟨z, hz, hze⟩ := h
      have : z = x := RobinItem.participant.inj hze
      rw [← this]
      exact (mem_shuffle_iff r arr z).mp hz
    · by_cases hps : options.playSelf <;> simp [hps] at h
  · intro hx
    left
    rw [List.mem_map]
    exact ⟨x, (mem_shuffle_iff r arr x).mpr hx, rfl⟩

theorem nodup_basePrepared (r : Nat → Nat) (options : TouranmentOptions) (arr : List α)
    (hnd : arr.Nodup) : (basePrepared r options arr).Nodup := by
  unfold basePrepared
  have hinj : Function.Injective (RobinItem.participant (α := α)) :=
    fun z w h => RobinItem.participant.inj h
  have h1 : ((shuffle r arr).map (RobinItem.participant (α := α))).Nodup :=
    List.Nodup.map hinj (((shuffle_perm r arr).nodup_iff).mpr hnd)
  by_cases hps : options.playSelf
  · rw [if_pos hps, List.nodup_append]
    refine ⟨h1, List.nodup_singleton _, ?_⟩
    intro it hit hmem
    rw [List.mem_map] at hit
    obtain ⟨z, _, hz⟩ := hit
    rw [List.mem_singleton] at hmem
    rw [hmem] at hz
    exact RobinItem.noConfusion hz
  · rw [if_neg hps, List.append_nil]
    exact h1

theorem prepare_length_even (r : Nat → Nat) (options : TouranmentOptions) (arr : List α) :
    (prepareRobinItems r options arr).length % 2 = 0 := by
  rw [prepareRobinItems_eq_base]
  by_cases h : (basePrepared r options arr).length % 2 ≠ 0
  · rw [if_pos h, List.length_append, List.length_singleton]
    omega
  · rw [if_neg h, List.append_nil]
    omega

theorem participant_mem_prepare_iff (r : Nat → Nat) (options : TouranmentOptions)
    (arr : List α) (x : α) :
    RobinItem.participant x ∈ prepareRobinItems r options arr ↔ x ∈ arr := by
  rw [prepareRobinItems_eq_base, List.mem_append]
  constructor
  · rintro (h | h)
    · exact (participant_mem_basePrepared_iff r options arr x).mp h
    · by_cases hp : (basePrepared r options arr).length % 2 ≠ 0 <;> simp [hp] at h
  · intro hx
    exact Or.inl ((participant_mem_basePrepared_iff r options arr x).mpr hx)

theorem selfS_mem_prepare_iff (r : Nat → Nat) (options : TouranmentOptions) (arr : List α) :
    RobinItem.selfS ∈ prepareRobinItems r options arr ↔ options.playSelf = true := by
  rw [prepareRobinItems_eq_base, List.mem_append]
  constructor
  · rintro (h | h)
    · exact (selfS_mem_basePrepared_iff r options arr).mp h
    · by_cases hp : (basePrepared r options arr).length % 2 ≠ 0 <;> simp [hp] at h
  · intro hps
    exact Or.inl ((selfS_mem_basePrepared_iff r options arr).mpr hps)

theorem restS_mem_prepare_iff (r : Nat → Nat) (options : TouranmentOptions) (arr : List α) :
    RobinItem.restS ∈ prepareRobinItems r options arr
      ↔ (arr.length + (if options.playSelf then 1 else 0)) % 2 = 1 := by
  rw [prepareRobinItems_eq_base, List.mem_append]
  rw [← length_basePrepared r options arr]
  constructor
  · rintro (h | h)
    · exact absurd h (restS_not_mem_basePrepared r options arr)
    · by_cases hp : (basePrepared r options arr).length % 2 ≠ 0
      · omega
      · simp [hp] at h
  · intro hodd
    right
    rw [if_pos (by omega)]
    simp

theorem nodup_prepare (r : Nat → Nat) (options : TouranmentOptions) (arr : List α)
    (hnd : arr.Nodup) : (prepareRobinItems r options arr).Nodup := by
  rw [prepareRobinItems_eq_base]
  by_cases hp : (basePrepared r options arr).length % 2 ≠ 0
  · rw [if_pos hp, List.nodup_append]
    refine ⟨nodup_basePrepared r options arr hnd, by simp, ?_⟩
    intro it hit
    simp only [List.mem_singleton]
    intro hc
    rw [hc] at hit
    exact restS_not_mem_basePrepared r options arr hit
  · rw [if_neg hp]
    simp [nodup_basePrepared r options arr hnd]

theorem basePrepared_noself (r : Nat → Nat) (options : TouranmentOptions) (arr : List α)
    (hps : options.playSelf = false) :
    basePrepared r options arr = (shuffle r arr).map RobinItem.participant := by
  unfold basePrepared
  rw [hps]
  simp

theorem length_prepare_cases (r : Nat → Nat) (options : TouranmentOptions) (arr : List α) :
    (prepareRobinItems r options arr).length = arr.length
    ∨ (prepareRobinItems r options arr).length = arr.length + 1
    ∨ (prepareRobinItems r options arr).length = arr.length + 2 := by
  have hbase := length_basePrepared r options arr
  have hsp : (if options.playSelf then 1 else 0) ≤ 1 := by
    by_cases hps : options.playSelf <;> simp [hps]
  by_cases hp : (basePrepared r options arr).length % 2 ≠ 0
  · rw [prepareRobinItems_eq_base, if_pos hp, List.length_append, List.length_singleton]
    omega
  · rw [prepareRobinItems_eq_base, if_neg hp, List.append_nil]
    omega

theorem length_prepare_noself (r : Nat → Nat) (options : TouranmentOptions) (arr : List α)
    (hps : options.playSelf = false) :
    (prepareRobinItems r options arr).length
      = arr.length + (if arr.length % 2 = 1 then 1 else 0) := by
  have hb : (basePrepared r options arr).length = arr.length := by
    rw [basePrepared_noself r options arr hps]
    rw [List.length_map, length_shuffle]
  by_cases hp : (basePrepared r options arr).length % 2 ≠ 0
  · rw [prepareRobinItems_eq_base, if_pos hp, List.length_append, List.length_singleton, hb,
      if_pos (by omega)]
  · rw [prepareRobinItems_eq_base, if_neg hp, List.append_nil, hb, if_neg (by omega)]
    omega

theorem countP_selfS_base_le_one (r : Nat → Nat) (options : TouranmentOptions)
    (arr : List α) [DecidableEq α] :
    (basePrepared r options arr).countP
      (fun it => decide (it = RobinItem.selfS)) ≤ 1 := by
  unfold basePrepared
  rw [List.countP_append]
  have h1 : ((shuffle r arr).map (RobinItem.participant (α := α))).countP
      (fun it => decide (it = RobinItem.selfS)) = 0 := by
    rw [List.countP_eq_zero]
    intro it hit
    rw [List.mem_map] at hit
    obtain ⟨z, _, hz⟩ := hit
    simp only [decide_eq_true_eq]
    rw [← hz]
    intro hc
    exact RobinItem.noConfusion hc
  have h2 : (if options.playSelf then ([RobinItem.selfS] : List (RobinItem α)) else []).countP
      (fun it => decide (it = RobinItem.selfS)) ≤ 1 := by
    by_cases hps : options.playSelf <;> simp [hps]
  omega

theorem countP_selfS_prepare_le_one (r : Nat → Nat) (options : TouranmentOptions)
    (arr : List α) [DecidableEq α] :
    (prepareRobinItems r options arr).countP
      (fun it => decide (it = RobinItem.selfS)) ≤ 1 := by
  rw [prepareRobinItems_eq_base, List.countP_append]
  have h3 : (if (basePrepared r options arr).length % 2 ≠ 0
      then ([RobinItem.restS] : List (RobinItem α)) else []).countP
      (fun it => decide (it = RobinItem.selfS)) = 0 := by
    by_cases hp : (basePrepared r options arr).length % 2 ≠ 0 <;> simp [hp]
  have hb := countP_selfS_base_le_one r options arr
  omega

theorem getD_last_prepare_rest (r : Nat → Nat) (options : TouranmentOptions) (arr : List α)
    (hodd : (arr.length + (if options.playSelf then 1 else 0)) % 2 = 1) :
    (prepareRobinItems r options arr).getD
      ((prepareRobinItems r options arr).length - 1) default = RobinItem.restS := by
  rw [prepareRobinItems_eq_base]
  have hb : (basePrepared r options arr).length % 2 ≠ 0 := by
    rw [length_basePrepared]
    omega
  rw [if_pos hb]
  rw [List.length_append, List.length_singleton]
  rw [List.getD_eq_getElem _ _ (by rw [List.length_append, List.length_singleton]; omega)]
  rw [List.getElem_append_right (by omega)]
  simp

end PreparedField

/-! ## Glue: the public operations in terms of rounds -/

section Glue

variable {α : Type}

theorem getRoundGames_no_rematch [DecidableEq α] (r2 : Nat → Nat → Nat)
    (items : List (RobinItem α)) (options : TouranmentOptions)
    (hre : options.rematch = false) :
    getRoundGames r2 items options = (getRound (r2 0) items).flatten := by
  unfold getRoundGames getRoundFixtures getRounds
  rw [hre]
  simp

theorem getRoundGames_rematch [DecidableEq α] (r2 : Nat → Nat → Nat)
    (items : List (RobinItem α)) (options : TouranmentOptions)
    (hre : options.rematch = true) :
    getRoundGames r2 items options
      = (getRound (r2 0) items).flatten ++ (getRound (r2 1) (reverseArr items)).flatten := by
  unfold getRoundGames getRoundFixtures getRounds
  rw [hre]
  simp

theorem mem_getRounds [DecidableEq α] (r2 : Nat → Nat → Nat) (items : List (RobinItem α))
    (options : TouranmentOptions) (round : List (List (RobinItem α × RobinItem α)))
    (h : round ∈ getRounds r2 items options) :
    round = getRound (r2 0) items ∨ round = getRound (r2 1) (reverseArr items) := by
  unfold getRounds at h
  by_cases hre : options.rematch
  · rw [hre] at h
    simp at h
    rcases h with h | h
    · exact Or.inl h
    · exact Or.inr h
  · rw [if_neg hre] at h
    simp at h
    exact Or.inl h

theorem getRound_perm [DecidableEq α] (ra rb : Nat → Nat) (items : List (RobinItem α)) :
    List.Perm (getRound ra items) (getRound rb items) := by
  rw [getRound_eq_offsets_map, getRound_eq_offsets_map]
  apply List.Perm.map
  exact (((shuffle_perm ra (codeRange 1 (items.length - 1)))).trans
    (shuffle_perm rb (codeRange 1 (items.length - 1))).symm).cons 0

theorem prepare_nil (r : Nat → Nat) (options : TouranmentOptions)
    (hps : options.playSelf = false) :
    prepareRobinItems r options ([] : List α) = [] := by
  unfold prepareRobinItems
  rw [hps]
  rfl

theorem shuffle_nil {β : Type} (r : Nat → Nat) : shuffle r ([] : List β) = [] := rfl

theorem getFixture_nil [DecidableEq α] : getFixture ([] : List (RobinItem α)) = [] := by
  unfold getFixture
  simp

theorem getRound_nil [DecidableEq α] (r : Nat → Nat) :
    getRound r ([] : List (RobinItem α)) = [[]] := by
  unfold getRound
  rw [getFixture_nil]
  have h : getShiftsOrder r (([] : List (RobinItem α)).length - 1) = [] := by
    unfold getShiftsOrder codeRange timesList
    simp [shuffle_nil]
  rw [h]
  rfl

theorem arith_pairs_even (n : Nat) (h : n % 2 = 0) :
    (n - 1) * (n / 2) = n * (n - 1) / 2 := by
  obtain ⟨k, hk⟩ := Nat.dvd_of_mod_eq_zero h
  subst hk
  rw [show 2 * k / 2 = k from by omega]
  rw [show 2 * k * (2 * k - 1) = 2 * (k * (2 * k - 1)) from by ring]
  rw [Nat.mul_div_cancel_left _ (by omega : 0 < 2)]
  exact Nat.mul_comm (2 * k - 1) k

theorem arith_pairs_odd (n : Nat) (h : n % 2 = 1) :
    n * ((n + 1) / 2) - n = n * (n - 1) / 2 := by
  obtain ⟨k, hk⟩ : ∃ k, n = 2 * k + 1 := ⟨n / 2, by omega⟩
  subst hk
  rw [show (2 * k + 1 + 1) / 2 = k + 1 from by omega]
  have h2 : (2 * k + 1) * (k + 1) = (2 * k + 1) * k + (2 * k + 1) := by ring
  have h3 : (2 * k + 1) * (2 * k + 1 - 1) / 2 = (2 * k + 1) * k := by
    rw [show 2 * k + 1 - 1 = 2 * k from by omega]
    rw [show (2 * k + 1) * (2 * k) = 2 * ((2 * k + 1) * k) from by ring]
    exact Nat.mul_div_cancel_left _ (by omega : 0 < 2)
  omega

end Glue

/-! ## The claims -/

section Claims

variable {α : Type}

/-- C9: for every input list of length `n`, the prepared field has length
`n`, `n+1` or `n+2` and that length is always even; SELF is appended
exactly when `playSelf` is set (before the parity check), and one REST
slot is present iff the length including SELF is odd. -/
theorem C9_prepared_field (r : Nat → Nat) (options : TouranmentOptions) (arr : List α) :
    (prepareRobinItems r options arr).length % 2 = 0
    ∧ ((prepareRobinItems r options arr).length = arr.length
      ∨ (prepareRobinItems r options arr).length = arr.length + 1
      ∨ (prepareRobinItems r options arr).length = arr.length + 2)
    ∧ (RobinItem.restS ∈ prepareRobinItems r options arr
      ↔ (arr.length + (if options.playSelf then 1 else 0)) % 2 = 1)
    ∧ (RobinItem.selfS ∈ prepareRobinItems r options arr ↔ options.playSelf = true) :=
  ⟨prepare_length_even r options arr, length_prepare_cases r options arr,
    restS_mem_prepare_iff r options arr, selfS_mem_prepare_iff r options arr⟩

/-- C8: `reshuffle()` builds a new handle over a freshly shuffled copy of
the current field; the multiset of slots is preserved count-for-count, the
options are unchanged, and the original handle's field is untouched (the
new handle is a separate value computed from `shuffle` of the current
field). -/
theorem C8_reshuffle [DecidableEq α] (t : Tournament α) (r : Nat → Nat) :
    t.reshuffle r = { robinItems := shuffle r t.robinItems, options := t.options }
    ∧ List.Perm (t.reshuffle r).robinItems t.robinItems
    ∧ (∀ x : RobinItem α,
        (t.reshuffle r).robinItems.countP (fun it => decide (it = x))
          = t.robinItems.countP (fun it => decide (it = x)))
    ∧ (t.reshuffle r).options = t.options :=
  ⟨rfl, shuffle_perm r t.robinItems,
    fun x => (shuffle_perm r t.robinItems).countP_eq (fun it => decide (it = x)), rfl⟩

/-- C5 counterexample: the resolver knows only `rematch` and `playSelf`
(the resolved record has no `shuffle` component), and the participant
order is permuted at creation even though no option requested it: with
the fully-defaulted configuration and the randomness that swaps the first
two slots, the prepared field for `[0, 1]` is `[1, 0]`, not the caller's
order. -/
theorem C5_counterexample :
    resolveOptions {} = { rematch := false, playSelf := false }
    ∧ prepareRobinItems (fun _ => 1) { rematch := false, playSelf := false } [0, 1]
        = [RobinItem.participant 1, RobinItem.participant 0]
    ∧ prepareRobinItems (fun _ => 1) { rematch := false, playSelf := false } [0, 1]
        ≠ [RobinItem.participant 0, RobinItem.participant 1]
    ∧ prepareRobinItems (fun _ => 1) { rematch := true, playSelf := false } [0, 1]
        ≠ [RobinItem.participant 0, RobinItem.participant 1] := by
  refine ⟨rfl, by decide, by decide, by decide⟩

/-- C5 (amended): the resolver accepts a partial configuration with the
recognized options `rematch` and `playSelf` only, and fills in the
defaults `rematch=false, playSelf=false` for unspecified options; there
is no `shuffle` option — the participant order is always shuffled at
creation, so the field always starts with the shuffled copy of the
caller's list. -/
theorem C5_options_resolution (o : UserTouranmentOptions) (b : Bool) (r : Nat → Nat)
    (arr : List α) :
    resolveOptions { rematch := none, playSelf := none } = getDefaultTournamentOptions
    ∧ resolveOptions { rematch := some b, playSelf := none } = { rematch := b, playSelf := false }
    ∧ resolveOptions { rematch := none, playSelf := some b } = { rematch := false, playSelf := b }
    ∧ resolveOptions o = { rematch := o.rematch.getD false, playSelf := o.playSelf.getD false }
    ∧ (∀ options : TouranmentOptions, ∃ tail,
        prepareRobinItems r options arr
          = (shuffle r arr).map RobinItem.participant ++ tail) := by
  refine ⟨rfl, rfl, rfl, rfl, ?_⟩
  intro options
  rw [prepareRobinItems_eq_base]
  unfold basePrepared
  rw [List.append_assoc]
  exact ⟨_, rfl⟩

/-- C6 counterexample: for the empty input the schedule does not produce
zero rounds and zero fixtures — `rounds()` yields exactly one round and
`fixtures()` exactly one fixture (the fixture is empty, so `games()` is
empty). -/
theorem C6_counterexample :
    (getRounds (fun _ _ => 0)
        (prepareRobinItems (fun _ => 0) { rematch := false, playSelf := false } ([] : List Nat))
        { rematch := false, playSelf := false }).length = 1
    ∧ (getRoundFixtures (fun _ _ => 0)
        (prepareRobinItems (fun _ => 0) { rematch := false, playSelf := false } ([] : List Nat))
        { rematch := false, playSelf := false }).length = 1 := by
  refine ⟨by decide, by decide⟩

/-- C6 (amended): for the empty input (with the default options) the
prepared field is empty, `rounds()` yields exactly one round consisting of
exactly one fixture with zero games, `fixtures()` yields that single empty
fixture, and `games()` is empty. -/
theorem C6_empty_input [DecidableEq α] (r1 : Nat → Nat) (r2 : Nat → Nat → Nat) :
    prepareRobinItems r1 { rematch := false, playSelf := false } ([] : List α) = []
    ∧ getRounds r2
        (prepareRobinItems r1 { rematch := false, playSelf := false } ([] : List α))
        { rematch := false, playSelf := false } = [[[]]]
    ∧ getRoundFixtures r2
        (prepareRobinItems r1 { rematch := false, playSelf := false } ([] : List α))
        { rematch := false, playSelf := false } = [[]]
    ∧ getRoundGames r2
        (prepareRobinItems r1 { rematch := false, playSelf := false } ([] : List α))
        { rematch := false, playSelf := false } = [] := by
  have hfield : prepareRobinItems r1 { rematch := false, playSelf := false } ([] : List α)
      = [] := prepare_nil r1 _ rfl
  refine ⟨hfield, ?_, ?_, ?_⟩
  · rw [hfield]
    unfold getRounds
    rw [getRound_nil]
    rfl
  · rw [hfield]
    unfold getRoundFixtures getRounds
    rw [getRound_nil]
    rfl
  · rw [hfield]
    unfold getRoundGames getRoundFixtures getRounds
    rw [getRound_nil]
    rfl

/-- C2: for every field of even length `L ≥ 2`, a round is the unrotated
fixture followed by one fixture per visited shift amount; the visited
non-zero shift amounts are a permutation of `1..L-2` (hence pairwise
distinct), the round has exactly `L-1` fixtures, and slot 0 of every
rotated arrangement holds the same value as slot 0 of the field. -/
theorem C2_round_structure [DecidableEq α] (r : Nat → Nat) (items : List (RobinItem α))
    (hL : items.length % 2 = 0) (hL2 : 2 ≤ items.length) :
    (getRound r items).length = items.length - 1
    ∧ getRound r items
        = getFixture items
          :: (getShiftsOrder r (items.length - 1)).map
              (fun shiftAmount => getFixture (shiftRobin shiftAmount items))
    ∧ List.Perm (getShiftsOrder r (items.length - 1)) (codeRange 1 (items.length - 1))
    ∧ (getShiftsOrder r (items.length - 1)).Nodup
    ∧ (∀ a ∈ getShiftsOrder r (items.length - 1), 1 ≤ a ∧ a ≤ items.length - 2)
    ∧ (∀ a ∈ getShiftsOrder r (items.length - 1),
        (shiftRobin a items).getD 0 default = items.getD 0 default) := by
  have hperm : List.Perm (getShiftsOrder r (items.length - 1))
      (codeRange 1 (items.length - 1)) :=
    shuffle_perm r (codeRange 1 (items.length - 1))
  have hcodemem : ∀ a ∈ codeRange 1 (items.length - 1), 1 ≤ a ∧ a ≤ items.length - 2 := by
    intro a ha
    unfold codeRange timesList at ha
    rw [List.mem_map] at ha
    obtain ⟨i, hi, hia⟩ := ha
    rw [List.mem_range] at hi
    omega
  have hmem : ∀ a ∈ getShiftsOrder r (items.length - 1), 1 ≤ a ∧ a ≤ items.length - 2 :=
    fun a ha => hcodemem a (hperm.mem_iff.mp ha)
  refine ⟨?_, rfl, hperm, ?_, hmem, ?_⟩
  · unfold getRound
    rw [List.length_cons, List.length_map]
    rw [hperm.length_eq]
    unfold codeRange timesList
    rw [List.length_map, List.length_range]
    omega
  · rw [hperm.nodup_iff]
    unfold codeRange timesList
    exact ((List.nodup_range _).map_on (fun i _ j _ h => by omega))
  · intro a _
    cases items with
    | nil => simp at hL2
    | cons st moving => rfl

/-- C2 witness at a concrete field of length 4. -/
theorem C2_witness :
    (([RobinItem.participant 0, RobinItem.participant 1, RobinItem.participant 2,
        RobinItem.participant 3] : List (RobinItem ℕ)).length % 2 = 0)
    ∧ (2 ≤ ([RobinItem.participant 0, RobinItem.participant 1, RobinItem.participant 2,
        RobinItem.participant 3] : List (RobinItem ℕ)).length)
    ∧ (getRound (fun _ => 0) ([RobinItem.participant 0, RobinItem.participant 1,
        RobinItem.participant 2, RobinItem.participant 3] : List (RobinItem ℕ))).length
      = ([RobinItem.participant 0, RobinItem.participant 1, RobinItem.participant 2,
        RobinItem.participant 3] : List (RobinItem ℕ)).length - 1 :=
  ⟨by decide, by decide,
    (C2_round_structure (fun _ => 0)
      [RobinItem.participant 0, RobinItem.participant 1, RobinItem.participant 2,
        RobinItem.participant 3] (by decide) (by decide)).1⟩

/-- C10: every game yielded through the public operations has both
components equal to participant values from the caller's input list; the
REST and SELF sentinel symbols never appear in any yielded game, for any
options and any outcome of the randomization. -/
theorem C10_games_are_participants [DecidableEq α] (r1 : Nat → Nat) (r2 : Nat → Nat → Nat)
    (options : TouranmentOptions) (arr : List α) :
    ∀ g ∈ getRoundGames r2 (prepareRobinItems r1 options arr) options,
      ∃ b c : α, b ∈ arr ∧ c ∈ arr
        ∧ g = (RobinItem.participant b, RobinItem.participant c) := by
  intro g hg
  unfold getRoundGames getRoundFixtures at hg
  rw [List.flatten_flatten] at hg
  rw [List.mem_flatten] at hg
  obtain ⟨rdgames, hrd, hgrd⟩ := hg
  rw [List.mem_map] at hrd
  obtain ⟨round, hround, hrdeq⟩ := hrd
  subst hrdeq
  have hitems := prepare_length_even r1 options arr
  have hone := countP_selfS_prepare_le_one r1 options arr
  rcases mem_getRounds r2 _ options round hround with hcase | hcase
  · subst hcase
    obtain ⟨b, c, hb, hc, hbc⟩ :=
      mem_round_games (r2 0) (prepareRobinItems r1 options arr) hitems hone g hgrd
    exact ⟨b, c, (participant_mem_prepare_iff r1 options arr b).mp hb,
      (participant_mem_prepare_iff r1 options arr c).mp hc, hbc⟩
  · subst hcase
    have hlenrev : (reverseArr (prepareRobinItems r1 options arr)).length % 2 = 0 := by
      unfold reverseArr
      rw [List.length_reverse]
      exact hitems
    have honerev : (reverseArr (prepareRobinItems r1 options arr)).countP
        (fun it => decide (it = RobinItem.selfS)) ≤ 1 := by
      unfold reverseArr
      rw [(List.reverse_perm _).countP_eq]
      exact hone
    obtain ⟨b, c, hb, hc, hbc⟩ :=
      mem_round_games (r2 1) (reverseArr (prepareRobinItems r1 options arr))
        hlenrev honerev g hgrd
    unfold reverseArr at hb hc
    rw [List.mem_reverse] at hb hc
    exact ⟨b, c, (participant_mem_prepare_iff r1 options arr b).mp hb,
      (participant_mem_prepare_iff r1 options arr c).mp hc, hbc⟩

/-- C10 witness at the field prepared from `[0, 1]`. -/
theorem C10_witness :
    ∃ b c : ℕ, b ∈ [0, 1] ∧ c ∈ [0, 1]
      ∧ ((RobinItem.participant 0, RobinItem.participant 1) : RobinItem ℕ × RobinItem ℕ)
        = (RobinItem.participant b, RobinItem.participant c) :=
  C10_games_are_participants (fun _ => 0) (fun _ _ => 0)
    { rematch := false, playSelf := false } [0, 1]
    (RobinItem.participant 0, RobinItem.participant 1) (by decide)

/-- C7 counterexample: two `games()` runs on the same handle, with
different random draws for the shift order, yield different sequences
(the games are the same up to order, but the claim demands identical
sequences for every pair of runs). -/
theorem C7_counterexample :
    (createTournament (fun _ => 0) [0, 1, 2, 3]
        { rematch := false, playSelf := false }).games (fun _ _ => 0)
      ≠ (createTournament (fun _ => 0) [0, 1, 2, 3]
        { rematch := false, playSelf := false }).games (fun _ _ => 1) := by
  decide

/-- C7 (amended): repeated invocations of `rounds()`, `fixtures()` and
`games()` on the same handle agree up to the order of fixtures within each
round: corresponding rounds are permutations of each other, and the
fixture and game sequences of any two runs are permutations of each other
(so the multiset of games is the same every time); runs making identical
random choices produce identical sequences. -/
theorem C7_runs_agree_up_to_order [DecidableEq α] (t : Tournament α)
    (r r' : Nat → Nat → Nat) :
    List.Forall₂ (fun rd rd' => List.Perm rd rd') (t.rounds r) (t.rounds r')
    ∧ List.Perm (t.fixtures r) (t.fixtures r')
    ∧ List.Perm (t.games r) (t.games r') := by
  have hr0 := getRound_perm (r 0) (r' 0) t.robinItems
  have hr1 := getRound_perm (r 1) (r' 1) (reverseArr t.robinItems)
  have hfix : List.Perm (t.fixtures r) (t.fixtures r') := by
    unfold Tournament.fixtures getRoundFixtures getRounds
    by_cases hre : t.options.rematch
    · rw [hre]
      simp only [if_true, List.cons_append, List.nil_append, List.flatten_cons,
        List.flatten_nil, List.append_nil]
      exact hr0.append hr1
    · rw [if_neg hre, if_neg hre]
      simp only [List.append_nil, List.flatten_cons, List.flatten_nil]
      exact hr0
  refine ⟨?_, hfix, ?_⟩
  · unfold Tournament.rounds getRounds
    by_cases hre : t.options.rematch
    · rw [hre]
      simp only [if_true, List.cons_append, List.nil_append]
      exact List.Forall₂.cons hr0 (List.Forall₂.cons hr1 List.Forall₂.nil)
    · rw [if_neg hre, if_neg hre]
      rw [List.append_nil, List.append_nil]
      exact List.Forall₂.cons hr0 List.Forall₂.nil
  · unfold Tournament.games getRoundGames
    exact List.Perm.flatten hfix

/-- C1: with `playSelf=false` and `rematch=false`, for every list of
pairwise-distinct participants and every outcome of the randomization,
the games of the single round contain every unordered pair of distinct
participants in exactly one game, and there are exactly `n*(n-1)/2`
yielded games in total, for even and odd `n` alike (REST-involving
candidates are suppressed and absorb no real pair). -/
theorem C1_unique_pair_coverage [DecidableEq α] (r1 : Nat → Nat) (r2 : Nat → Nat → Nat)
    (arr : List α) (hnd : arr.Nodup) :
    (∀ x y : α, x ∈ arr → y ∈ arr → x ≠ y →
      (getRoundGames r2 (prepareRobinItems r1 { rematch := false, playSelf := false } arr)
          { rematch := false, playSelf := false }).countP
        (fun g => decide (g = (RobinItem.participant x, RobinItem.participant y)
          ∨ g = (RobinItem.participant y, RobinItem.participant x))) = 1)
    ∧ (getRoundGames r2 (prepareRobinItems r1 { rematch := false, playSelf := false } arr)
        { rematch := false, playSelf := false }).length
      = arr.length * (arr.length - 1) / 2 := by
  have hgames := getRoundGames_no_rematch r2
    (prepareRobinItems r1 { rematch := false, playSelf := false } arr)
    { rematch := false, playSelf := false } rfl
  have hself : RobinItem.selfS ∉
      prepareRobinItems r1 { rematch := false, playSelf := false } arr := by
    intro hs
    rw [selfS_mem_prepare_iff] at hs
    simp at hs
  constructor
  · intro x y hx hy hxy
    rw [hgames]
    exact countP_pair_round (r2 0) _
      (prepare_length_even r1 _ arr) (nodup_prepare r1 _ arr hnd) hself
      ((participant_mem_prepare_iff r1 _ arr x).mpr hx)
      ((participant_mem_prepare_iff r1 _ arr y).mpr hy) hxy
  · rw [hgames]
    by_cases hn0 : arr.length = 0
    · have harr : arr = [] := List.length_eq_zero.mp hn0
      subst harr
      rw [prepare_nil r1 _ rfl, getRound_nil]
      simp
    · have hL := length_prepare_noself r1 { rematch := false, playSelf := false } arr rfl
      by_cases hpar : arr.length % 2 = 1
      · have hLval : (prepareRobinItems r1 { rematch := false, playSelf := false } arr).length
            = arr.length + 1 := by
          rw [hL, if_pos hpar]
        have hL2 : 2 ≤ (prepareRobinItems r1
            { rematch := false, playSelf := false } arr).length := by omega
        rw [length_round_rest_last (r2 0) _ (prepare_length_even r1 _ arr) hL2
          (nodup_prepare r1 _ arr hnd) hself
          (getD_last_prepare_rest r1 _ arr (by simpa using hpar))]
        rw [hLval]
        rw [show arr.length + 1 - 1 = arr.length from rfl]
        exact arith_pairs_odd arr.length hpar
      · have hpar0 : arr.length % 2 = 0 := by omega
        have hLval : (prepareRobinItems r1 { rematch := false, playSelf := false } arr).length
            = arr.length := by
          rw [hL, if_neg hpar]
          omega
        have hL2 : 2 ≤ (prepareRobinItems r1
            { rematch := false, playSelf := false } arr).length := by omega
        have hrest : RobinItem.restS ∉
            prepareRobinItems r1 { rematch := false, playSelf := false } arr := by
          intro hmem
          rw [restS_mem_prepare_iff] at hmem
          simp at hmem
          omega
        rw [length_round_no_sentry (r2 0) _ hL2 hself hrest]
        rw [hLval]
        exact arith_pairs_even arr.length hpar0

/-- C1 witness at the concrete odd-sized input `[0, 1, 2]`. -/
theorem C1_witness :
    ([0, 1, 2] : List ℕ).Nodup
    ∧ ((∀ x y : ℕ, x ∈ [0, 1, 2] → y ∈ [0, 1, 2] → x ≠ y →
        (getRoundGames (fun _ _ => 0)
            (prepareRobinItems (fun _ => 0) { rematch := false, playSelf := false } [0, 1, 2])
            { rematch := false, playSelf := false }).countP
          (fun g => decide (g = (RobinItem.participant x, RobinItem.participant y)
            ∨ g = (RobinItem.participant y, RobinItem.participant x))) = 1)
      ∧ (getRoundGames (fun _ _ => 0)
          (prepareRobinItems (fun _ => 0) { rematch := false, playSelf := false } [0, 1, 2])
          { rematch := false, playSelf := false }).length
        = ([0, 1, 2] : List ℕ).length * (([0, 1, 2] : List ℕ).length - 1) / 2) :=
  ⟨by decide, C1_unique_pair_coverage (fun _ => 0) (fun _ _ => 0) [0, 1, 2] (by decide)⟩

/-- C3 counterexample: with `rematch=true` on `[0,1,2,3]` (identity
randomness), the pair `{0, 2}` is played as `(0, 2)` in both passes —
the roles are not swapped between the two rounds. -/
theorem C3_counterexample :
    (getRoundGames (fun _ _ => 0)
        (prepareRobinItems (fun _ => 0) { rematch := true, playSelf := false } [0, 1, 2, 3])
        { rematch := true, playSelf := false }).countP
      (fun g => decide (g = (RobinItem.participant 0, RobinItem.participant 2))) = 2
    ∧ (getRoundGames (fun _ _ => 0)
        (prepareRobinItems (fun _ => 0) { rematch := true, playSelf := false } [0, 1, 2, 3])
        { rematch := true, playSelf := false }).countP
      (fun g => decide (g = (RobinItem.participant 2, RobinItem.participant 0))) = 0 := by
  refine ⟨by decide, by decide⟩

/-- C3 (amended): with `rematch=true`, the second round is produced over
the element-wise reversed field, and every unordered pair of distinct
participants appears exactly once per pass — hence exactly twice across
`games()` — but the two occurrences need not have swapped left/right
roles. -/
theorem C3_rematch_coverage [DecidableEq α] (r1 : Nat → Nat) (r2 : Nat → Nat → Nat)
    (arr : List α) (hnd : arr.Nodup) (x y : α) (hx : x ∈ arr) (hy : y ∈ arr) (hxy : x ≠ y) :
    getRounds r2 (prepareRobinItems r1 { rematch := true, playSelf := false } arr)
        { rematch := true, playSelf := false }
      = [getRound (r2 0) (prepareRobinItems r1 { rematch := true, playSelf := false } arr),
        getRound (r2 1)
          (reverseArr (prepareRobinItems r1 { rematch := true, playSelf := false } arr))]
    ∧ (getRound (r2 0)
          (prepareRobinItems r1 { rematch := true, playSelf := false } arr)).flatten.countP
        (fun g => decide (g = (RobinItem.participant x, RobinItem.participant y)
          ∨ g = (RobinItem.participant y, RobinItem.participant x))) = 1
    ∧ (getRound (r2 1)
          (reverseArr (prepareRobinItems r1
            { rematch := true, playSelf := false } arr))).flatten.countP
        (fun g => decide (g = (RobinItem.participant x, RobinItem.participant y)
          ∨ g = (RobinItem.participant y, RobinItem.participant x))) = 1
    ∧ (getRoundGames r2 (prepareRobinItems r1 { rematch := true, playSelf := false } arr)
        { rematch := true, playSelf := false }).countP
        (fun g => decide (g = (RobinItem.participant x, RobinItem.participant y)
          ∨ g = (RobinItem.participant y, RobinItem.participant x))) = 2 := by
  have hself : RobinItem.selfS ∉
      prepareRobinItems r1 { rematch := true, playSelf := false } arr := by
    intro hs
    rw [selfS_mem_prepare_iff] at hs
    simp at hs
  have hc1 : (getRound (r2 0)
      (prepareRobinItems r1 { rematch := true, playSelf := false } arr)).flatten.countP
        (fun g => decide (g = (RobinItem.participant x, RobinItem.participant y)
          ∨ g = (RobinItem.participant y, RobinItem.participant x))) = 1 :=
    countP_pair_round (r2 0) _
      (prepare_length_even r1 _ arr) (nodup_prepare r1 _ arr hnd) hself
      ((participant_mem_prepare_iff r1 _ arr x).mpr hx)
      ((participant_mem_prepare_iff r1 _ arr y).mpr hy) hxy
  have hc2 : (getRound (r2 1)
      (reverseArr (prepareRobinItems r1
        { rematch := true, playSelf := false } arr))).flatten.countP
        (fun g => decide (g = (RobinItem.participant x, RobinItem.participant y)
          ∨ g = (RobinItem.participant y, RobinItem.participant x))) = 1 := by
    apply countP_pair_round
    · unfold reverseArr
      rw [List.length_reverse]
      exact prepare_length_even r1 _ arr
    · unfold reverseArr
      exact (List.nodup_reverse).mpr (nodup_prepare r1 _ arr hnd)
    · unfold reverseArr
      rw [List.mem_reverse]
      exact hself
    · unfold reverseArr
      rw [List.mem_reverse]
      exact (participant_mem_prepare_iff r1 _ arr x).mpr hx
    · unfold reverseArr
      rw [List.mem_reverse]
      exact (participant_mem_prepare_iff r1 _ arr y).mpr hy
    · exact hxy
  refine ⟨rfl, hc1, hc2, ?_⟩
  rw [getRoundGames_rematch r2 _ _ rfl, List.countP_append, hc1, hc2]

/-- C3 witness at the concrete input `[0, 1, 2]` and the pair `{0, 1}`. -/
theorem C3_witness :
    ([0, 1, 2] : List ℕ).Nodup ∧ (0 : ℕ) ∈ [0, 1, 2] ∧ (1 : ℕ) ∈ [0, 1, 2] ∧ (0 : ℕ) ≠ 1
    ∧ (getRoundGames (fun _ _ => 0)
        (prepareRobinItems (fun _ => 0) { rematch := true, playSelf := false } [0, 1, 2])
        { rematch := true, playSelf := false }).countP
        (fun g => decide (g = (RobinItem.participant 0, RobinItem.participant 1)
          ∨ g = (RobinItem.participant 1, RobinItem.participant 0))) = 2 :=
  ⟨by decide, by decide, by decide, by decide,
    (C3_rematch_coverage (fun _ => 0) (fun _ _ => 0) [0, 1, 2] (by decide) 0 1
      (by decide) (by decide) (by decide)).2.2.2⟩

/-- C4 counterexample: with `playSelf=true` on `[0, 1]` (identity
randomness, no rematch), the single round yields two self-pairings —
`(1,1)` and `(0,0)` — not exactly one. -/
theorem C4_counterexample :
    (getRoundGames (fun _ _ => 0)
        (prepareRobinItems (fun _ => 0) { rematch := false, playSelf := true } [0, 1])
        { rematch := false, playSelf := true }).countP
      (fun g => decide (g.1 = g.2)) = 2 := by
  decide

/-- C4 (amended): with `playSelf=true` and pairwise-distinct participants,
each round contains exactly one self-pairing per participant — the game
`(x, x)` appears exactly once per round for every participant `x` (so `n`
self-pairings per round, not one) — and every self-pairing that appears is
`(x, x)` for some participant `x` of the input. -/
theorem C4_selfpair_per_participant [DecidableEq α] (r1 : Nat → Nat) (r2 : Nat → Nat → Nat)
    (options : TouranmentOptions) (hps : options.playSelf = true)
    (arr : List α) (hnd : arr.Nodup) :
    ∀ round ∈ getRounds r2 (prepareRobinItems r1 options arr) options,
      (∀ x ∈ arr, round.flatten.countP
          (fun g => decide (g = (RobinItem.participant x, RobinItem.participant x))) = 1)
      ∧ (∀ g ∈ round.flatten, g.1 = g.2
          → ∃ x, x ∈ arr ∧ g = (RobinItem.participant x, RobinItem.participant x)) := by
  intro round hround
  rcases mem_getRounds r2 _ options round hround with hcase | hcase
  · subst hcase
    constructor
    · intro x hx
      exact count_selfpair_round (r2 0) _ (prepare_length_even r1 options arr)
        (nodup_prepare r1 options arr hnd)
        ((participant_mem_prepare_iff r1 options arr x).mpr hx)
        ((selfS_mem_prepare_iff r1 options arr).mpr hps)
    · intro g hg hgeq
      obtain ⟨b, c, hb, hc, hbc⟩ := mem_round_games (r2 0) _
        (prepare_length_even r1 options arr)
        (countP_selfS_prepare_le_one r1 options arr) g hg
      have hbceq : b = c := by
        rw [hbc] at hgeq
        exact RobinItem.participant.inj hgeq
      exact ⟨b, (participant_mem_prepare_iff r1 options arr b).mp hb,
        by rw [hbc, hbceq]⟩
  · subst hcase
    have hlenrev : (reverseArr (prepareRobinItems r1 options arr)).length % 2 = 0 := by
      unfold reverseArr
      rw [List.length_reverse]
      exact prepare_length_even r1 options arr
    constructor
    · intro x hx
      apply count_selfpair_round (r2 1) _ hlenrev
      · unfold reverseArr
        exact (List.nodup_reverse).mpr (nodup_prepare r1 options arr hnd)
      · unfold reverseArr
        rw [List.mem_reverse]
        exact (participant_mem_prepare_iff r1 options arr x).mpr hx
      · unfold reverseArr
        rw [List.mem_reverse]
        exact (selfS_mem_prepare_iff r1 options arr).mpr hps
    · intro g hg hgeq
      have honerev : (reverseArr (prepareRobinItems r1 options arr)).countP
          (fun it => decide (it = RobinItem.selfS)) ≤ 1 := by
        unfold reverseArr
        rw [(List.reverse_perm _).countP_eq]
        exact countP_selfS_prepare_le_one r1 options arr
      obtain ⟨b, c, hb, hc, hbc⟩ := mem_round_games (r2 1) _ hlenrev honerev g hg
      have hbceq : b = c := by
        rw [hbc] at hgeq
        exact RobinItem.participant.inj hgeq
      unfold reverseArr at hb
      rw [List.mem_reverse] at hb
      exact ⟨b, (participant_mem_prepare_iff r1 options arr b).mp hb,
        by rw [hbc, hbceq]⟩

/-- C4 witness at the concrete input `[0, 1]` with `playSelf=true`:
in the single round, each of the two participants has exactly one
self-pairing. -/
theorem C4_witness :
    ({ rematch := false, playSelf := true } : TouranmentOptions).playSelf = true
    ∧ ([0, 1] : List ℕ).Nodup
    ∧ getRound ((fun _ _ => 0) 0)
        (prepareRobinItems (fun _ => 0) { rematch := false, playSelf := true } [0, 1])
      ∈ getRounds (fun _ _ => 0)
          (prepareRobinItems (fun _ => 0) { rematch := false, playSelf := true } [0, 1])
          { rematch := false, playSelf := true }
    ∧ ((∀ x ∈ ([0, 1] : List ℕ),
        (getRound ((fun _ _ => 0) 0)
            (prepareRobinItems (fun _ => 0)
              { rematch := false, playSelf := true } [0, 1])).flatten.countP
          (fun g => decide (g = (RobinItem.participant x, RobinItem.participant x))) = 1)
      ∧ (∀ g ∈ (getRound ((fun _ _ => 0) 0)
            (prepareRobinItems (fun _ => 0)
              { rematch := false, playSelf := true } [0, 1])).flatten, g.1 = g.2
          → ∃ x, x ∈ ([0, 1] : List ℕ)
            ∧ g = (RobinItem.participant x, RobinItem.participant x))) :=
  ⟨rfl, by decide, by decide,
    C4_selfpair_per_participant (fun _ => 0) (fun _ _ => 0)
      { rematch := false, playSelf := true } rfl [0, 1] (by decide)
      (getRound ((fun _ _ => 0) 0)
        (prepareRobinItems (fun _ => 0) { rematch := false, playSelf := true } [0, 1]))
      (by decide)⟩

end Claims

end AllPlayAll
